import Mathlib

/-!
Verification of the kyndall-content-engine product-link extraction and
reconciliation pipeline.  The JavaScript sources (`src/amazon.js`,
`src/brands.js`, `src/claude.js`) are shallowly embedded: module-level
mutable state becomes explicit state records threaded through step
functions, `Date.now()` becomes an explicit `Nat` clock argument, network
calls become oracle arguments (`Option` results / fetch outcomes), and
JavaScript strings become `List Char` processed by executable functions
that mirror the regular expressions of the source.  Case-insensitive
matching models the ASCII fragment of JavaScript `/i` folding, which is
exact for every string the repository manipulates.
-/

namespace ContentEngine

set_option maxRecDepth 100000

/-! ## Character and string helpers (JavaScript `\s`, dashes, ASCII case folding) -/

/-- JavaScript `\s` (the ASCII part plus NBSP and BOM, the white space the
repository's inputs can contain). -/
def isSpaceJS (c : Char) : Bool :=
  c = ' ' || c = '\t' || c = '\n' || c = '\r' || c = '\x0b' || c = '\x0c' ||
  c = ' ' || c = '﻿'

/-- The dash characters of the source's `[-–—]` character class:
hyphen, en dash, em dash. -/
def isDashChar (c : Char) : Bool :=
  c = '-' || c = '–' || c = '—'

/-- The dash characters of the fallback line-scan's `[-–]` class (no em dash). -/
def isDashHyphenEn (c : Char) : Bool :=
  c = '-' || c = '–'

/-- ASCII case-insensitive character comparison (JavaScript `/i`). -/
def lowerEq (a b : Char) : Bool :=
  a.toLower = b.toLower

/-- `toLowerCase()` on the ASCII fragment. -/
def lowerL (l : List Char) : List Char :=
  l.map Char.toLower

/-- `toUpperCase()` on the ASCII fragment. -/
def upperL (l : List Char) : List Char :=
  l.map Char.toUpper

/-- Drop trailing JavaScript white space. -/
def dropTrailWs (l : List Char) : List Char :=
  (l.reverse.dropWhile isSpaceJS).reverse

/-- Drop a trailing run of `[-–—]` dashes. -/
def dropTrailDashes (l : List Char) : List Char :=
  (l.reverse.dropWhile isDashChar).reverse

/-- JavaScript `trim()`. -/
def trimL (l : List Char) : List Char :=
  dropTrailWs (l.dropWhile isSpaceJS)

/-- Case-sensitively drop the literal `pat` from the front of `cs`. -/
def dropLit : List Char → List Char → Option (List Char)
  | [], cs => some cs
  | _ :: _, [] => none
  | p :: ps, c :: cs => if p = c then dropLit ps cs else none

/-- Case-insensitively drop the literal `pat` from the front of `cs`. -/
def dropCI : List Char → List Char → Option (List Char)
  | [], cs => some cs
  | _ :: _, [] => none
  | p :: ps, c :: cs => if lowerEq p c then dropCI ps cs else none

/-- Does `cs` start with the literal `pat` (case-sensitive)? -/
def startsLit (pat cs : List Char) : Bool :=
  (dropLit pat cs).isSome

/-- Does `cs` start with the literal `pat` (case-insensitive)? -/
def startsCI (pat cs : List Char) : Bool :=
  (dropCI pat cs).isSome

/-- JavaScript `String.prototype.includes` (case-sensitive substring). -/
def hasSub (needle : List Char) : List Char → Bool
  | [] => needle.isEmpty
  | c :: t => startsLit needle (c :: t) || hasSub needle t

/-- `split(sep)` for a single separator character. -/
def splitOnChar (sep : Char) : List Char → List (List Char)
  | [] => [[]]
  | c :: t =>
    let r := splitOnChar sep t
    if c = sep then [] :: r
    else
      match r with
      | p :: ps => (c :: p) :: ps
      | [] => [[c]]

/-! ## `src/amazon.js` — retail catalog client (cache, rate gate, search, enrichment) -/

/-- The result record built by `searchAmazonProduct` from the first item of
a PA-API response. -/
structure AmazonResult where
  asin : String
  title : String
  url : String
  price : Option String
  imageUrl : Option String
  available : Bool
deriving DecidableEq

/-- One entry of the module-level `cache` map: `{ data, timestamp }`.
`data` is `none` for a cached "not found" (JavaScript `null`). -/
structure CacheEntry where
  data : Option AmazonResult
  timestamp : Nat
deriving DecidableEq

/-- The module-level mutable state of `amazon.js`: the cache map, the
rate-limit timestamp and whether credentials are configured. -/
structure AmazonState where
  cache : List (String × CacheEntry)
  lastRequestTime : Nat
  configured : Bool
deriving DecidableEq

def MIN_REQUEST_INTERVAL_MS : Nat := 1100

def CACHE_TTL_MS : Nat := 24 * 60 * 60 * 1000

/-- `getCacheKey`: `searchTerm.toLowerCase().trim()`. -/
def getCacheKey (searchTerm : String) : String :=
  ⟨trimL (lowerL searchTerm.data)⟩

/-- `getFromCache`: returns `cached.data` when the entry is fresh, `null`
otherwise.  A fresh entry whose `data` is `null` therefore returns the
same value as a miss — the collapse at the heart of claim C1. -/
def getFromCache (st : AmazonState) (now : Nat) (searchTerm : String) : Option AmazonResult :=
  match st.cache.find? (fun e => e.1 = getCacheKey searchTerm) with
  | some e => if now - e.2.timestamp < CACHE_TTL_MS then e.2.data else none
  | none => none

/-- `Map.set` on the association-list model of the cache. -/
def cacheSet (cache : List (String × CacheEntry)) (k : String) (v : CacheEntry) :
    List (String × CacheEntry) :=
  if cache.any (fun e => e.1 = k) then
    cache.map (fun e => if e.1 = k then (k, v) else e)
  else cache ++ [(k, v)]

/-- `saveToCache(searchTerm, data)` at clock `now`. -/
def saveToCache (st : AmazonState) (now : Nat) (searchTerm : String)
    (data : Option AmazonResult) : AmazonState :=
  { st with cache := cacheSet st.cache (getCacheKey searchTerm) ⟨data, now⟩ }

/-- `waitForRateLimit`: given the clock `now` and the stored
`lastRequestTime`, returns the clock value after the (possible) sleep,
which is also the new `lastRequestTime`. -/
def waitForRateLimit (now lastRequestTime : Nat) : Nat :=
  if now - lastRequestTime < MIN_REQUEST_INTERVAL_MS then
    now + (MIN_REQUEST_INTERVAL_MS - (now - lastRequestTime))
  else now

/-- The observable outcome of one `searchAmazonProduct` call: its return
value, the new module state, whether a network request was issued, and
the clock at which that request went out. -/
structure SearchStep where
  result : Option AmazonResult
  state : AmazonState
  networkCalled : Bool
  requestTime : Nat
deriving DecidableEq

/-- `searchAmazonProduct(searchTerm)` at clock `now`.  `netResult` is the
network oracle: the value the fetch would produce (`none` uniformly for
HTTP errors, empty result lists and thrown exceptions, exactly as the
source catches and caches them). -/
def searchAmazonProduct (searchTerm : String) (now : Nat) (st : AmazonState)
    (netResult : Option AmazonResult) : SearchStep :=
  if !st.configured then ⟨none, st, false, now⟩
  else
    match getFromCache st now searchTerm with
    | some cached => ⟨some cached, st, false, now⟩
    | none =>
      let t := waitForRateLimit now st.lastRequestTime
      let st1 := { st with lastRequestTime := t }
      let st2 := saveToCache st1 t searchTerm netResult
      ⟨netResult, st2, true, t⟩

/-- The product record of `claude.js`, including the enrichment fields
`enrichProductsWithAmazon` may add.  `Option String` plays JavaScript
`string | null`; absent optional fields are `none`. -/
structure ExtractedProduct where
  brand : String
  name : String
  type : String
  searchQuery : String
  shopmyUrl : Option String
  amazonUrl : Option String
  originalUrl : String
  amazonAsin : Option String
  amazonPrice : Option String
  amazonTitle : Option String
  amazonImageUrl : Option String
deriving DecidableEq

/-- JavaScript truthiness of a `string | null` field. -/
def jsTruthyStr : Option String → Bool
  | none => false
  | some s => s ≠ ""

def defaultMaxProducts : Nat := 50

/-- The search query `enrichProductsWithAmazon` builds:
`product.searchQuery || ((brand === 'Unknown' ? '' : brand + ' ') + name).trim()`. -/
def buildSearchQuery (p : ExtractedProduct) : String :=
  if p.searchQuery ≠ "" then p.searchQuery
  else ⟨trimL ((if p.brand ≠ "Unknown" then p.brand ++ " " else "") ++ p.name).data⟩

/-- One iteration of the enrichment loop body for product `p`; returns the
(possibly updated) product and the query sent to `searchAmazonProduct`,
if any.  `searchFn` abstracts `searchAmazonProduct` (cache plus network). -/
def enrichOne (searchFn : String → Option AmazonResult) (p : ExtractedProduct) :
    ExtractedProduct × Option String :=
  if jsTruthyStr p.amazonUrl then (p, none)
  else
    let searchQuery := buildSearchQuery p
    if searchQuery = "" ∨ searchQuery = "Unknown" ∨ searchQuery.length < 3 then (p, none)
    else
      match searchFn searchQuery with
      | some r =>
        ({ p with amazonUrl := some r.url, amazonAsin := some r.asin,
                  amazonPrice := r.price, amazonTitle := some r.title,
                  amazonImageUrl := r.imageUrl }, some searchQuery)
      | none => (p, some searchQuery)

/-- The `for (let i = 0; i < products.length && i < maxProducts; i++)` loop.
Returns the final product list and the searches issued as (index, query)
pairs. -/
def enrichLoop (searchFn : String → Option AmazonResult) (maxProducts : Nat) :
    Nat → List ExtractedProduct → List ExtractedProduct × List (Nat × String)
  | _, [] => ([], [])
  | i, p :: rest =>
    if i < maxProducts then
      let step := enrichOne searchFn p
      let tail := enrichLoop searchFn maxProducts (i + 1) rest
      (step.1 :: tail.1,
       (match step.2 with | some q => [(i, q)] | none => []) ++ tail.2)
    else (p :: rest, [])

/-- `enrichProductsWithAmazon(products, { maxProducts })`.  When the client
is not configured the list is returned untouched. -/
def enrichProductsWithAmazon (searchFn : String → Option AmazonResult)
    (configured : Bool) (maxProducts : Nat) (products : List ExtractedProduct) :
    List ExtractedProduct × List (Nat × String) :=
  if !configured then (products, [])
  else enrichLoop searchFn maxProducts 0 products

/-! ## `src/brands.js` — brand directory (remote fetch, cache, static fallback) -/

/-- One record of the remote brand query `{ name, aliases }`; either field
may be absent (`none`). -/
structure SanityBrand where
  name : Option String
  aliases : Option (List String)
deriving DecidableEq

/-- The outcome of the remote fetch: a record list, or a thrown error. -/
inductive FetchOutcome where
  | ok (brands : List SanityBrand)
  | err
deriving DecidableEq

/-- The module-level mutable state of `brands.js`. -/
structure BrandsState where
  cachedBrands : Option (List String)
  lastFetchTime : Option Nat
deriving DecidableEq

def CACHE_DURATION_MS : Nat := 30 * 60 * 1000

/-- Stable insertion keeping the list sorted by length descending,
matching the stable `sort((a, b) => b.length - a.length)`. -/
def insertByLenDesc (x : String) : List String → List String
  | [] => [x]
  | y :: t => if y.length ≤ x.length then x :: y :: t else y :: insertByLenDesc x t

/-- The source's `sort((a, b) => b.length - a.length)` (stable). -/
def sortByLenDesc (l : List String) : List String :=
  l.foldr insertByLenDesc []

/-- `[...new Set(allNames)]`: keep the first occurrence of each string. -/
def dedupFirstGo (seen : List String) : List String → List String
  | [] => []
  | x :: t =>
    if seen.contains x then dedupFirstGo seen t
    else x :: dedupFirstGo (x :: seen) t

def dedupFirst (l : List String) : List String :=
  dedupFirstGo [] l

/-- Flattening of the fetched records: push truthy `name`, then the truthy
aliases, in record order. -/
def flattenBrandNames : List SanityBrand → List String
  | [] => []
  | b :: t =>
    ((match b.name with
      | some n => if n ≠ "" then [n] else []
      | none => []) ++
     (match b.aliases with
      | some l => l.filter (fun a => a ≠ "")
      | none => [])) ++ flattenBrandNames t

/-- The literal `FALLBACK_BRANDS` array of `src/brands.js`, before the
trailing `.sort`. -/
def fallbackBrandsList : List String := [
  "Anastasia Beverly Hills", "Makeup By Mario", "Pat McGrath Labs",
  "Benefit Cosmetics", "Giorgio Armani", "Yves Saint Laurent",
  "Charlotte Tilbury", "Kylie Cosmetics", "Estée Lauder", "Estee Lauder",
  "Laura Mercier", "Natasha Denona", "Lunar Beauty", "Urban Decay",
  "Fenty Beauty", "Huda Beauty", "Rare Beauty", "Pat McGrath",
  "Bobbi Brown", "Milk Makeup", "Too Faced", "ColourPop", "Colourpop",
  "BH Cosmetics", "NYX Professional", "Tower 28", "TOWER 28", "Hourglass",
  "Smashbox", "Maybelline", "Glossier", "Benefit", "CoverGirl", "Clinique",
  "Lancôme", "Lancome", "Revlon", "Morphe", "Chanel", "Armani", "Tarte",
  "Kylie", "Fenty", "Kosas", "Merit", "e.l.f.", "E.L.F.", "NARS", "Dior",
  "Saie", "Ilia", "ILIA", "MAC", "YSL", "elf", "ELF", "NYX", "ABH", "PMG",
  "CT",
  "Youth To The People", "Peter Thomas Roth", "Augustinus Bader",
  "Dr. Dennis Gross", "First Aid Beauty", "Paula's Choice", "Paula Choice",
  "La Roche-Posay", "Drunk Elephant", "Good Molecules", "IT Cosmetics",
  "Alpyn Beauty", "The Ordinary", "Sunday Riley", "Glow Recipe",
  "Dermalogica", "Skin Smart", "SkinSmart", "Neutrogena", "Touchland",
  "Supergoop", "Herbivore", "Timeless", "Kiehl's", "Kiehls", "Farmacy",
  "Origins", "Cetaphil", "Bioderma", "CeraVe", "Tatcha", "La Mer",
  "Yepoda", "Versed", "Avène", "Avene", "Fresh", "Bliss", "Vichy",
  "SK-II", "SKII", "Pixi", "YTTP", "FAB",
  "Beauty of Joseon", "Thank You Farmer", "Holika Holika",
  "Nature Republic", "Pyunkang Yul", "By Wishtrend", "Etude House",
  "Peach & Lily", "Tony Moly", "TONYMOLY", "Round Lab", "Some By Mi",
  "Dr. Jart+", "Dr. Jart", "Dr Jart", "Banila Co", "Innisfree",
  "Torriden", "SKIN1004", "Mediheal", "Peripera", "Heimish", "Isntree",
  "Dasique", "LANEIGE", "Laneige", "Rom&nd", "Romand", "TirTir", "TIRTIR",
  "Missha", "Klairs", "Goodal", "Purito", "COSRX", "Cosrx", "Etude",
  "Benton", "Clio", "CLIO", "Anua",
  "Bumble and bumble", "Bumble & Bumble", "Pattern Beauty", "SheaMoisture",
  "Shea Moisture", "Living Proof", "Moroccanoil", "Moroccan Oil",
  "Kérastase", "Kerastase", "Pureology", "Color Wow", "DevaCurl",
  "Briogeo", "Olaplex", "Redken", "Got2b", "GOT2B", "got2b", "Pattern",
  "Gisou", "Amika", "Dyson", "Ouai", "OUAI", "Verb", "Dae", "IGK", "JVN",
  "Brazilian Bum Bum", "Being Frenshe", "Sol de Janeiro", "Summer Fridays",
  "Dr. Teal's", "Dr Teal's", "Dr Teals", "Nécessaire", "Necessaire",
  "Tree Hut", "Aquaphor", "Eucerin", "Kopari", "Nivea", "Dove",
  "Maison Margiela", "Jo Malone", "Diptyque", "Tom Ford", "Replica",
  "Le Labo", "Versace", "Byredo", "Gucci", "Prada",
  "L'Oréal", "L'Oreal", "Loreal", "Neilmed", "NeilMed", "O'Sulloc",
  "Osulloc", "Patrick Ta", "Aveeno", "Lumify", "Sante", "Rhode",
  "Juvia's Place", "Make Up For Ever", "MUFE"]

/-- `FALLBACK_BRANDS`: the literal list with its trailing
`.sort((a, b) => b.length - a.length)` applied. -/
def FALLBACK_BRANDS : List String :=
  sortByLenDesc fallbackBrandsList

/-- The observable outcome of one `getBrands()` call: the returned list,
the new module state, and whether a remote fetch was attempted. -/
structure BrandsStep where
  brands : List String
  state : BrandsState
  fetchAttempted : Bool
deriving DecidableEq

/-- Is the cache check `cachedBrands && lastFetchTime && (now - lastFetchTime
< CACHE_DURATION_MS)` satisfied?  (`lastFetchTime` is truthy only when
non-zero.) -/
def brandsCacheFresh (st : BrandsState) (now : Nat) : Bool :=
  match st.cachedBrands, st.lastFetchTime with
  | some _, some t => t ≠ 0 && now - t < CACHE_DURATION_MS
  | _, _ => false

/-- `getBrands()` at clock `now`.  `clientConfigured` models whether
`initBrands` installed a Sanity client; `outcome` is the remote-fetch
oracle, consulted only when the fetch is attempted. -/
def getBrands (now : Nat) (clientConfigured : Bool) (outcome : FetchOutcome)
    (st : BrandsState) : BrandsStep :=
  if brandsCacheFresh st now then
    ⟨st.cachedBrands.getD [], st, false⟩
  else if clientConfigured then
    match outcome with
    | .ok brands =>
      if brands ≠ [] then
        let cached := sortByLenDesc (dedupFirst (flattenBrandNames brands))
        ⟨cached, ⟨some cached, some now⟩, true⟩
      else ⟨FALLBACK_BRANDS, ⟨some FALLBACK_BRANDS, some now⟩, true⟩
    | .err => ⟨FALLBACK_BRANDS, ⟨some FALLBACK_BRANDS, some now⟩, true⟩
  else ⟨FALLBACK_BRANDS, ⟨some FALLBACK_BRANDS, some now⟩, false⟩

/-! ## `src/claude.js` — extraction pipeline (segmenter, parser, classifier, dedup) -/

/-- Removal of the first match of `/\s*[-–—]\s*$/` (a single trailing dash
with surrounding white space), as in `extractBrandAndName`.  The class of
dash characters is a parameter because the fallback line scan uses the
narrower `[-–]`. -/
def stripTrailingDashOnceBy (dash : Char → Bool) (l : List Char) : List Char :=
  let r := dropTrailWs l
  match r.getLast? with
  | some c => if dash c then dropTrailWs r.dropLast else l
  | none => l

def stripTrailingDashOnce (l : List Char) : List Char :=
  stripTrailingDashOnceBy isDashChar l

/-- Removal of the first match of `/\s*[-–—]+\s*$/` (a trailing dash run
with surrounding white space), as in the primary-section candidate
cleanup. -/
def stripTrailingDashRun (l : List Char) : List Char :=
  let r := dropTrailWs l
  match r.getLast? with
  | some c => if isDashChar c then dropTrailWs (dropTrailDashes r) else l
  | none => l

/-- Removal of the match of `/^\s*[-–—]+\s*/` (a leading dash run with
surrounding white space). -/
def stripLeadingDashRun (l : List Char) : List Char :=
  let r := l.dropWhile isSpaceJS
  match r with
  | c :: _ =>
    if isDashChar c then (r.dropWhile isDashChar).dropWhile isSpaceJS else l
  | [] => l

/-- The candidate cleanup of the primary section:
`trim`, strip trailing separator run, strip leading separator run, `trim`. -/
def cleanProductText (l : List Char) : List Char :=
  trimL (stripLeadingDashRun (stripTrailingDashRun (trimL l)))

/-- The test of one brand-loop iteration: does the regex built from the
escaped brand literal, anchored at the start and followed by at least one
white-space character, match the candidate case-insensitively? -/
def anchoredBrandMatch (b : String) (nm : List Char) : Bool :=
  match dropCI b.data nm with
  | some (c :: _) => isSpaceJS c
  | _ => false

/-- The remainder `name.replace(regex, '').trim()` after a successful
anchored match: the brand literal and the greedy `\s+` are removed. -/
def brandRemainder (b : String) (nm : List Char) : List Char :=
  trimL (((dropCI b.data nm).getD nm).dropWhile isSpaceJS)

/-- The brand loop of `extractBrandAndName`: the first brand in list order
with an anchored match wins. -/
def brandLoop : List String → List Char → Option (String × List Char)
  | [], _ => none
  | b :: bs, nm =>
    if anchoredBrandMatch b nm then some (b, brandRemainder b nm)
    else brandLoop bs nm

/-- The initial cleanup of `extractBrandAndName`: one trailing dash with
surrounding white space removed, then `replace(/\s+$/, '')`, then `trim()`. -/
def preBrandCleanup (fullProductName : String) : List Char :=
  trimL (dropTrailWs (stripTrailingDashOnce fullProductName.data))

/-- The final cleanup of `extractBrandAndName`: quote characters removed
everywhere, then one more trailing dash removed, then `trim()`. -/
def postBrandCleanup (rest : List Char) : List Char :=
  trimL (stripTrailingDashOnce (rest.filter (fun c => c ≠ '"')))

/-- `extractBrandAndName(fullProductName, beautyBrands)`. -/
def extractBrandAndName (fullProductName : String) (beautyBrands : List String) :
    String × String :=
  match brandLoop beautyBrands (preBrandCleanup fullProductName) with
  | some (b, rest) => (b, ⟨postBrandCleanup rest⟩)
  | none => ("Unknown", ⟨postBrandCleanup (preBrandCleanup fullProductName)⟩)

def makeupKeywords : List String :=
  ["foundation", "concealer", "powder", "blush", "bronzer", "highlighter",
   "lipstick", "lip ", "mascara", "eyeliner", "eyeshadow", "brow",
   "primer", "setting", "contour", "tint", "pencil", "balm", "gloss",
   "palette"]

def skincareKeywords : List String :=
  ["serum", "moisturizer", "cleanser", "toner", "sunscreen", "spf",
   "retinol", "vitamin c", "mask", "exfoliant", "cream", "lotion",
   "wash", "acid", "oil"]

def haircareKeywords : List String :=
  ["shampoo", "conditioner", "hair", "styling", "olaplex", "dry shampoo"]

def fragranceKeywords : List String :=
  ["perfume", "fragrance", "cologne", "body mist", "eau de"]

def bodycareKeywords : List String :=
  ["body", "scrub", "bath", "hand", "soak"]

def toolsKeywords : List String :=
  ["brush", "sponge", "curler", "dryer", "straightener", "dyson",
   "mirror", "organizer", "spoolie"]

/-- `guessProductType(text)`: first matching category wins, in the fixed
order makeup, skincare, haircare, fragrance, bodycare, tools. -/
def guessProductType (text : List Char) : String :=
  let lower := lowerL text
  if makeupKeywords.any (fun k => hasSub k.data lower) then "makeup"
  else if skincareKeywords.any (fun k => hasSub k.data lower) then "skincare"
  else if haircareKeywords.any (fun k => hasSub k.data lower) then "haircare"
  else if fragranceKeywords.any (fun k => hasSub k.data lower) then "fragrance"
  else if bodycareKeywords.any (fun k => hasSub k.data lower) then "bodycare"
  else if toolsKeywords.any (fun k => hasSub k.data lower) then "tools"
  else "other"

/-- ASCII letter, the `[A-Z]` class under the `/i` flag. -/
def isAsciiLetter (c : Char) : Bool :=
  ('A' ≤ c && c ≤ 'Z') || ('a' ≤ c && c ≤ 'z')

/-- The `\n[A-Z]{2,}:` look-ahead alternative (after the newline):
a run of at least two letters directly followed by a colon. -/
def labelTermMatch (rest : List Char) : Bool :=
  let run := rest.takeWhile isAsciiLetter
  decide (2 ≤ run.length) &&
    (match rest.drop run.length with
     | ':' :: _ => true
     | _ => false)

/-- The look-ahead of the section regex
`(?=\n\n|\nFOLLOW|\nSUBSCRIBE|\nBUSINESS|\nMUSIC|\n[A-Z]{2,}:|$)`,
tested at the current suffix of the text. -/
def sectionTerminator : List Char → Bool
  | [] => true
  | '\n' :: rest =>
    (match rest with
     | '\n' :: _ => true
     | _ => false) ||
    startsCI "FOLLOW".data rest || startsCI "SUBSCRIBE".data rest ||
    startsCI "BUSINESS".data rest || startsCI "MUSIC".data rest ||
    labelTermMatch rest
  | _ => false

/-- Match of the header part `PRODUCTS?\s*(?:MENTIONED)?:?\s*` at the
current position; returns the suffix at which the lazy capture starts. -/
def matchHeaderAt (cs : List Char) : Option (List Char) :=
  match dropCI "PRODUCT".data cs with
  | none => none
  | some r1 =>
    let r2 := match r1 with
      | c :: t => if lowerEq c 's' then t else r1
      | [] => r1
    let r3 := r2.dropWhile isSpaceJS
    let r4 := match dropCI "MENTIONED".data r3 with
      | some x => x
      | none => r3
    let r5 := match r4 with
      | ':' :: t => t
      | _ => r4
    some (r5.dropWhile isSpaceJS)

/-- Left-to-right scan for the first header match (`String.match` finds
the leftmost occurrence). -/
def findHeader : List Char → Option (List Char)
  | [] => none
  | c :: t =>
    match matchHeaderAt (c :: t) with
    | some r => some r
    | none => findHeader t

/-- The lazy capture `([\s\S]*?)` before the look-ahead: everything up to
the first position at which `sectionTerminator` holds. -/
def captureFrom : List Char → List Char
  | [] => []
  | c :: t => if sectionTerminator (c :: t) then [] else c :: captureFrom t

/-- Group 1 of the section regex of `extractProductsFromDescription`,
`none` when the regex does not match. -/
def findProductsSection (description : String) : Option String :=
  (findHeader description.data).map (fun r => ⟨captureFrom r⟩)

/-- Match of `/https?:\/\/[^\s]+/` at the current position (case-sensitive,
as in the primary section's `urlPattern`): returns the matched URL and
the rest. -/
def matchUrlFrom (cs : List Char) : Option (List Char × List Char) :=
  match dropLit "http".data cs with
  | none => none
  | some r1 =>
    let sPart : List Char × List Char :=
      match r1 with
      | 's' :: t => (['s'], t)
      | _ => ([], r1)
    match dropLit "://".data sPart.2 with
    | none => none
    | some r3 =>
      let run := r3.takeWhile (fun c => !isSpaceJS c)
      if run.isEmpty then none
      else some ("http".data ++ sPart.1 ++ "://".data ++ run, r3.drop run.length)

/-- The combined `match(urlPattern)` and `split(urlPattern)` of the primary
section: fuel-driven scan producing the text parts between URL matches
(one more part than URLs) and the URLs in order. -/
def splitUrlsGo : Nat → List Char → List (List Char) × List (List Char)
  | _, [] => ([[]], [])
  | 0, cs => ([cs], [])
  | Nat.succ f, c :: t =>
    match matchUrlFrom (c :: t) with
    | some (url, rest) =>
      let tail := splitUrlsGo f rest
      ([] :: tail.1, url :: tail.2)
    | none =>
      let tail := splitUrlsGo f t
      match tail with
      | (p :: ps, urls) => ((c :: p) :: ps, urls)
      | ([], urls) => ([[c]], urls)

def splitByUrls (cs : List Char) : List (List Char) × List (List Char) :=
  splitUrlsGo cs.length cs

/-- The affiliate-shortener domain test of the link classifier. -/
def classifyUrlShopmy (url : List Char) : Bool :=
  hasSub "shopmy.us".data url || hasSub "go.shopmy.us".data url ||
  hasSub "shop-links.co".data url

/-- The retail domain test of the link classifier. -/
def classifyUrlAmazon (url : List Char) : Bool :=
  hasSub "amazon.com".data url || hasSub "amzn.to".data url ||
  hasSub "amzn.com".data url

def amazonAssociateTag : String := "kyndallames09-20"

/-- Does the query string of the URL already carry a `tag` parameter? -/
def hasTagParam (url : List Char) : Bool :=
  match url.dropWhile (fun c => c ≠ '?') with
  | _ :: query => (splitOnChar '&' query).any (fun p => startsLit "tag=".data p)
  | [] => false

/-- The `addAmazonAssociateTag` helper closed over the module-level tag:
`amzn.to` short links pass through untouched, a URL already carrying a
`tag` parameter passes through, otherwise the tag is appended.  (The
source's WHATWG URL round-trip is modelled as this query-parameter
lookup and append; every claim exercises only the `amzn.to` branch.) -/
def addAmazonAssociateTag (url : List Char) : List Char :=
  if hasSub "amzn.to".data url then url
  else if hasTagParam url then url
  else if url.contains '?' then url ++ ("&tag=" ++ amazonAssociateTag).data
  else url ++ ("?tag=" ++ amazonAssociateTag).data

/-- The body of the primary-section loop for one URL and the text part
preceding it; `none` when the candidate is skipped. -/
def mkMethod1Product (brands : List String) (url rawText : List Char) :
    Option ExtractedProduct :=
  let productText := cleanProductText rawText
  if productText.length < 2 then none
  else if lowerL productText = "shop my:".data then none
  else
    let bn := extractBrandAndName ⟨productText⟩ brands
    let shopmy := classifyUrlShopmy url
    let amazon := classifyUrlAmazon url
    some { brand := bn.1, name := bn.2,
           type := guessProductType productText,
           searchQuery := ⟨trimL (bn.1 ++ " " ++ bn.2).data⟩,
           shopmyUrl := if shopmy then some ⟨url⟩ else none,
           amazonUrl := if shopmy then none
                        else if amazon then some ⟨addAmazonAssociateTag url⟩
                        else none,
           originalUrl := ⟨url⟩,
           amazonAsin := none, amazonPrice := none,
           amazonTitle := none, amazonImageUrl := none }

/-- METHOD 1: parse the captured section by splitting at URLs. -/
def method1Products (brands : List String) (sectionText : List Char) :
    List ExtractedProduct :=
  let split := splitByUrls sectionText
  (split.2.zip split.1).filterMap (fun uv => mkMethod1Product brands (trimL uv.1) uv.2)

def skipPatterns : List String :=
  ["follow me", "subscribe", "business", "instagram:", "tiktok:",
   "twitter:", "shop my:"]

def affiliateTypes : List String :=
  ["shopmy", "amazon", "rstyle", "liketoknow", "ltk.app"]

/-- Case-insensitive match of `https?:\/\/[^\s]+` (the fallback line
regex carries the `/i` flag). -/
def matchUrlFromCI (cs : List Char) : Option (List Char) :=
  match cs with
  | a :: b :: c :: d :: r0 =>
    if lowerEq a 'h' && lowerEq b 't' && lowerEq c 't' && lowerEq d 'p' then
      let sPart : List Char × List Char :=
        match r0 with
        | s :: t => if lowerEq s 's' then ([s], t) else ([], r0)
        | [] => ([], r0)
      match dropLit "://".data sPart.2 with
      | none => none
      | some r3 =>
        let run := r3.takeWhile (fun c => !isSpaceJS c)
        if run.isEmpty then none
        else some ([a, b, c, d] ++ sPart.1 ++ "://".data ++ run)
    else none
  | _ => none

/-- Position (≥ the given offset 1) and text of the first URL match in the
line, scanning left to right. -/
def firstUrlIdx : List Char → Option (Nat × List Char)
  | [] => none
  | c :: t =>
    match matchUrlFromCI (c :: t) with
    | some url => some (0, url)
    | none => (firstUrlIdx t).map (fun iu => (iu.1 + 1, iu.2))

/-- The separator class `[-–:]` of the fallback line regex. -/
def isLineSep (c : Char) : Bool :=
  c = '-' || c = '–' || c = ':'

/-- Semantics of `/(.+?)\s*[-–:]?\s*(https?:\/\/[^\s]+)/i` on a single
line: the URL is the first match at index ≥ 1, and the lazy group 1 is
the shortest nonempty prefix such that the gap up to the URL matches
`\s*[-–:]?\s*`; equivalently, everything before the longest suffix of
the gap of that shape (but at least one character). -/
def lineUrlMatch (line : List Char) : Option (List Char × List Char) :=
  match line with
  | [] => none
  | _ :: t =>
    match firstUrlIdx t with
    | none => none
    | some iu =>
      let p := iu.1 + 1
      let back := (line.take p).reverse
      let n1 := (back.takeWhile isSpaceJS).length
      let rest1 := back.drop n1
      let shaped := n1 +
        (match rest1 with
         | c :: t2 => if isLineSep c then 1 + (t2.takeWhile isSpaceJS).length else 0
         | [] => 0)
      let k := max 1 (p - shaped)
      some (line.take k, iu.2)

/-- The `/^[•\-\*\d.]\s*/` bullet cleanup of the fallback path. -/
def stripLeadingBullet (l : List Char) : List Char :=
  match l with
  | c :: t =>
    if c = '•' || c = '-' || c = '*' || c = '.' || c.isDigit then
      t.dropWhile isSpaceJS
    else l
  | [] => l

/-- The body of the fallback line scan for one line; `none` when the line
produces no product. -/
def method2Line (brands : List String) (line : List Char) :
    Option ExtractedProduct :=
  let trimmedLine := trimL line
  if trimmedLine.isEmpty then none
  else if skipPatterns.any (fun p => hasSub p.data (lowerL trimmedLine)) then none
  else
    match lineUrlMatch trimmedLine with
    | none => none
    | some gu =>
      let productName :=
        trimL (stripTrailingDashOnceBy isDashHyphenEn (stripLeadingBullet gu.1))
      if productName.length < 3 then none
      else if upperL productName = productName then none
      else
        let bn := extractBrandAndName ⟨productName⟩ brands
        let url := gu.2
        if affiliateTypes.any (fun t => hasSub t.data url) then
          let shopmy := classifyUrlShopmy url
          let amazon := classifyUrlAmazon url
          some { brand := bn.1, name := bn.2,
                 type := guessProductType productName,
                 searchQuery := ⟨trimL (bn.1 ++ " " ++ bn.2).data⟩,
                 shopmyUrl := if shopmy then some ⟨url⟩ else none,
                 amazonUrl := if shopmy then none
                              else if amazon then some ⟨addAmazonAssociateTag url⟩
                              else none,
                 originalUrl := ⟨url⟩,
                 amazonAsin := none, amazonPrice := none,
                 amazonTitle := none, amazonImageUrl := none }
        else none

/-- METHOD 2: scan the whole description line by line. -/
def method2Products (brands : List String) (description : List Char) :
    List ExtractedProduct :=
  (splitOnChar '\n' description).filterMap (method2Line brands)

/-- The dedup key of the final filter:
`p.originalUrl || (p.brand + '-' + p.name).toLowerCase()`. -/
def dedupKey (p : ExtractedProduct) : String :=
  if p.originalUrl ≠ "" then p.originalUrl
  else ⟨lowerL (p.brand ++ "-" ++ p.name).data⟩

/-- The `seen`-set filter removing later duplicates. -/
def removeDupsGo (seen : List String) : List ExtractedProduct → List ExtractedProduct
  | [] => []
  | p :: t =>
    if seen.contains (dedupKey p) then removeDupsGo seen t
    else p :: removeDupsGo (dedupKey p :: seen) t

def removeDuplicates (ps : List ExtractedProduct) : List ExtractedProduct :=
  removeDupsGo [] ps

/-- `extractProductsFromDescription(description)` with the brand list (the
awaited `getBrands()` result) passed explicitly. -/
def extractProductsFromDescription (description : String)
    (beautyBrands : List String) : List ExtractedProduct :=
  if description = "" then []
  else
    let m1 :=
      match findHeader description.data with
      | some r => method1Products beautyBrands (captureFrom r)
      | none => []
    let ps := if m1.isEmpty then method2Products beautyBrands description.data else m1
    removeDuplicates ps

/-! ## Concrete inputs used by the claims -/

/-- Scenario A of the specification (claim C2). -/
def scenarioADescription : String :=
  "PRODUCTS:\nFarmacy Green Clean Cleansing Balm - https://go.shopmy.us/abc123\nCeraVe Moisturizing Cream https://amzn.to/xyz789\n"

/-- The Farmacy record the pipeline actually emits for Scenario A: its
`type` is `"makeup"` because `'balm'` is a makeup keyword and the makeup
keyword set is tested before the skincare one. -/
def scenarioAFarmacyRecord : ExtractedProduct :=
  { brand := "Farmacy", name := "Green Clean Cleansing Balm", type := "makeup",
    searchQuery := "Farmacy Green Clean Cleansing Balm",
    shopmyUrl := some "https://go.shopmy.us/abc123", amazonUrl := none,
    originalUrl := "https://go.shopmy.us/abc123",
    amazonAsin := none, amazonPrice := none, amazonTitle := none,
    amazonImageUrl := none }

/-- The CeraVe record the pipeline emits for Scenario A. -/
def scenarioACeraVeRecord : ExtractedProduct :=
  { brand := "CeraVe", name := "Moisturizing Cream", type := "skincare",
    searchQuery := "CeraVe Moisturizing Cream",
    shopmyUrl := none, amazonUrl := some "https://amzn.to/xyz789",
    originalUrl := "https://amzn.to/xyz789",
    amazonAsin := none, amazonPrice := none, amazonTitle := none,
    amazonImageUrl := none }

/-! ## Claim C1 — negative results are saved to the cache but do not
short-circuit the second lookup -/

/-- C1: the claim states that two `searchAmazonProduct` calls with the same
query within the 24-hour TTL issue at most one network request, a cached
"not found" (`null`) included.  The code saves the negative
(`saveToCache(searchTerm, null)`), but `getFromCache` returns
`cached.data`, so a fresh negative entry is indistinguishable from a
miss and the `cached !== null` test fails: the second call issues the
network request again.  This theorem evaluates the embedded code at the
failing input (a query whose lookup finds nothing, repeated one second
later) and, for contrast, shows that a cached positive result is served
from the cache as the claim describes. -/
theorem searchAmazonProduct_negative_cache_reissues_network :
    (let first := searchAmazonProduct "discontinued balm" 5000 ⟨[], 0, true⟩ none
     let second := searchAmazonProduct "discontinued balm" 6000 first.state none
     first.networkCalled = true ∧ first.result = none ∧
     second.networkCalled = true ∧ second.result = none ∧
     6000 - 5000 < CACHE_TTL_MS) ∧
    (let firstPos := searchAmazonProduct "glow serum" 5000 ⟨[], 0, true⟩
       (some ⟨"B0TESTASIN", "Glow Serum",
              "https://www.amazon.com/dp/B0TESTASIN?tag=kyndallames-20",
              none, none, true⟩)
     let secondPos := searchAmazonProduct "glow serum" 6000 firstPos.state none
     firstPos.networkCalled = true ∧ secondPos.networkCalled = false ∧
     secondPos.result = firstPos.result ∧ secondPos.result.isSome = true) := by
  decide

/-! ## Claim C2 — Scenario A extraction -/

/-- C2 counterexample: the claim asserts both Scenario A records carry
`type := "skincare"`, but the emitted types are `["makeup", "skincare"]`
— `'balm'` sits in the makeup keyword set, which `guessProductType`
tests before the skincare set, so the Farmacy Cleansing Balm is typed
`"makeup"`. -/
theorem extractScenarioA_first_type_is_makeup :
    (extractProductsFromDescription scenarioADescription FALLBACK_BRANDS).map
      (fun p => p.type) = ["makeup", "skincare"] ∧
    ("makeup" : String) ≠ "skincare" := by
  decide

/-- C2 (amended): extraction of Scenario A yields exactly the two claimed
records — same brands, names, URLs and search queries — except that the
Farmacy record's `type` is `"makeup"` (not `"skincare"`). -/
theorem extractScenarioA_two_records :
    extractProductsFromDescription scenarioADescription FALLBACK_BRANDS =
      [scenarioAFarmacyRecord, scenarioACeraVeRecord] := by
  decide

/-! ## Claim C7 — the shared rate gate -/

/-- The sleep of `waitForRateLimit` lands at least `MIN_REQUEST_INTERVAL_MS`
past the previous request and never before the current clock. -/
theorem waitForRateLimit_lower_bound (now last : Nat) (h : last ≤ now) :
    last + MIN_REQUEST_INTERVAL_MS ≤ waitForRateLimit now last ∧
    now ≤ waitForRateLimit now last := by
  unfold waitForRateLimit MIN_REQUEST_INTERVAL_MS
  split <;> omega

/-- On a cache miss, `searchAmazonProduct` waits on the rate gate, issues
the network request at the post-wait clock, stores the result and
advances `lastRequestTime`. -/
theorem searchAmazonProduct_miss (q : String) (now : Nat) (st : AmazonState)
    (n : Option AmazonResult) (hconf : st.configured = true)
    (hmiss : st.cache.find? (fun e => e.1 = getCacheKey q) = none) :
    searchAmazonProduct q now st n =
      ⟨n, ⟨st.cache ++ [(getCacheKey q, ⟨n, waitForRateLimit now st.lastRequestTime⟩)],
           waitForRateLimit now st.lastRequestTime, st.configured⟩,
       true, waitForRateLimit now st.lastRequestTime⟩ := by
  have hany : st.cache.any (fun e => e.1 = getCacheKey q) = false := by
    rw [List.any_eq_false]
    intro x hx
    have := List.find?_eq_none.mp hmiss x hx
    simpa using this
  unfold searchAmazonProduct getFromCache saveToCache cacheSet
  rw [hconf, hmiss]
  simp [hany]

/-- C7: the rate gate is one shared `lastRequestTime`; three sequential
non-cached searches (distinct, previously unseen queries) each issue a
network request, consecutive requests are at least
`MIN_REQUEST_INTERVAL_MS` apart, and the third request goes out at least
`2 × MIN_REQUEST_INTERVAL_MS` after the first, whatever extra time
`d1`, `d2` the intervening responses consume. -/
theorem rate_gate_three_searches
    (q1 q2 q3 : String) (st : AmazonState) (t1 d1 d2 : Nat)
    (n1 n2 n3 : Option AmazonResult)
    (hconf : st.configured = true) (hcache : st.cache = [])
    (hlast : st.lastRequestTime ≤ t1)
    (h12 : getCacheKey q1 ≠ getCacheKey q2)
    (h13 : getCacheKey q1 ≠ getCacheKey q3)
    (h23 : getCacheKey q2 ≠ getCacheKey q3) :
    (searchAmazonProduct q1 t1 st n1).networkCalled = true ∧
    (let s1 := searchAmazonProduct q1 t1 st n1
     let s2 := searchAmazonProduct q2 (s1.requestTime + d1) s1.state n2
     let s3 := searchAmazonProduct q3 (s2.requestTime + d2) s2.state n3
     s2.networkCalled = true ∧ s3.networkCalled = true ∧
     s1.requestTime + MIN_REQUEST_INTERVAL_MS ≤ s2.requestTime ∧
     s2.requestTime + MIN_REQUEST_INTERVAL_MS ≤ s3.requestTime ∧
     s1.requestTime + 2 * MIN_REQUEST_INTERVAL_MS ≤ s3.requestTime) := by
  have e1 := searchAmazonProduct_miss q1 t1 st n1 hconf (by rw [hcache]; rfl)
  set r1 := waitForRateLimit t1 st.lastRequestTime with hr1
  have hb1 := waitForRateLimit_lower_bound t1 st.lastRequestTime hlast
  constructor
  · rw [e1]
  rw [e1]
  simp only [hcache, List.nil_append]
  have e2 := searchAmazonProduct_miss q2 (r1 + d1)
      ⟨[(getCacheKey q1, ⟨n1, r1⟩)], r1, st.configured⟩ n2 hconf
      (by simp [List.find?, h12])
  rw [e2]
  simp only [List.cons_append, List.nil_append]
  have hb2 := waitForRateLimit_lower_bound (r1 + d1) r1 (by omega)
  set r2 := waitForRateLimit (r1 + d1) r1 with hr2
  have e3 := searchAmazonProduct_miss q3 (r2 + d2)
      ⟨[(getCacheKey q1, ⟨n1, r1⟩), (getCacheKey q2, ⟨n2, r2⟩)], r2, st.configured⟩ n3 hconf
      (by simp [List.find?, h13, h23])
  rw [e3]
  dsimp only
  have hb3 := waitForRateLimit_lower_bound (r2 + d2) r2 (by omega)
  obtain ⟨hb1a, hb1b⟩ := hb1
  obtain ⟨hb2a, hb2b⟩ := hb2
  obtain ⟨hb3a, hb3b⟩ := hb3
  refine ⟨by trivial, by trivial, ?_, ?_, ?_⟩ <;> omega

/-- C7 witness: the rate-gate theorem applied to three concrete queries
from a fresh state with zero response delays. -/
theorem rate_gate_three_searches_witness :
    (searchAmazonProduct "lip tint" 0 ⟨[], 0, true⟩ none).networkCalled = true ∧
    (let s1 := searchAmazonProduct "lip tint" 0 ⟨[], 0, true⟩ none
     let s2 := searchAmazonProduct "hair oil" (s1.requestTime + 0) s1.state none
     let s3 := searchAmazonProduct "face mask" (s2.requestTime + 0) s2.state none
     s2.networkCalled = true ∧ s3.networkCalled = true ∧
     s1.requestTime + MIN_REQUEST_INTERVAL_MS ≤ s2.requestTime ∧
     s2.requestTime + MIN_REQUEST_INTERVAL_MS ≤ s3.requestTime ∧
     s1.requestTime + 2 * MIN_REQUEST_INTERVAL_MS ≤ s3.requestTime) :=
  rate_gate_three_searches "lip tint" "hair oil" "face mask" ⟨[], 0, true⟩ 0 0 0
    none none none rfl rfl (by decide) (by decide) (by decide) (by decide)

/-! ## Claims C6 and C10 — enrichment frame properties -/

/-- A product whose `amazonUrl` is truthy survives the loop untouched at
its index. -/
theorem enrichLoop_keeps_truthy (searchFn : String → Option AmazonResult)
    (maxP : Nat) :
    ∀ (ps : List ExtractedProduct) (j i : Nat) (p : ExtractedProduct),
      ps[i]? = some p → jsTruthyStr p.amazonUrl = true →
      (enrichLoop searchFn maxP j ps).1[i]? = some p := by
  intro ps
  induction ps with
  | nil => intro j i p hp _; simp at hp
  | cons q t ih =>
    intro j i p hp htr
    unfold enrichLoop
    by_cases hj : j < maxP
    · simp only [hj, if_true]
      match i with
      | 0 =>
        rw [List.getElem?_cons_zero, Option.some_inj] at hp
        have hq : enrichOne searchFn q = (q, none) := by
          unfold enrichOne
          rw [hp, htr]
          simp
        rw [List.getElem?_cons_zero, hq, hp]
      | Nat.succ k =>
        simp only [List.getElem?_cons_succ] at hp ⊢
        exact ih (j + 1) k p hp htr
    · simp only [hj, if_false]
      exact hp

/-- Past the `maxProducts` bound the loop returns its input unchanged. -/
theorem enrichLoop_beyond_id (searchFn : String → Option AmazonResult)
    (maxP : Nat) :
    ∀ (ps : List ExtractedProduct) (j i : Nat), maxP ≤ j + i →
      (enrichLoop searchFn maxP j ps).1[i]? = ps[i]? := by
  intro ps
  induction ps with
  | nil => intro j i _; rfl
  | cons q t ih =>
    intro j i hge
    unfold enrichLoop
    by_cases hj : j < maxP
    · simp only [hj, if_true]
      match i with
      | 0 => omega
      | Nat.succ k =>
        simp only [List.getElem?_cons_succ]
        exact ih (j + 1) k (by omega)
    · simp only [hj, if_false]

/-- Every search the loop issues is for an index below `maxProducts`. -/
theorem enrichLoop_searched_lt (searchFn : String → Option AmazonResult)
    (maxP : Nat) :
    ∀ (ps : List ExtractedProduct) (j : Nat),
      ∀ e ∈ (enrichLoop searchFn maxP j ps).2, e.1 < maxP := by
  intro ps
  induction ps with
  | nil => intro j e he; simp [enrichLoop] at he
  | cons q t ih =>
    intro j e he
    unfold enrichLoop at he
    by_cases hj : j < maxP
    · simp only [hj, if_true] at he
      rw [List.mem_append] at he
      rcases he with he | he
      · match hq : (enrichOne searchFn q).2 with
        | some s => rw [hq] at he; simp at he; subst he; exact hj
        | none => rw [hq] at he; simp at he
      · exact ih (j + 1) e he
    · simp only [hj, if_false] at he
      simp at he

/-- C6: a record that already carries a non-null (and non-empty, i.e. an
actual parsed retail link) `amazonUrl` is returned by
`enrichProductsWithAmazon` with every field unchanged — enrichment never
overwrites an explicit link from the description. -/
theorem enrich_never_overwrites_explicit_link
    (searchFn : String → Option AmazonResult) (configured : Bool)
    (maxProducts : Nat) (ps : List ExtractedProduct) (i : Nat)
    (p : ExtractedProduct) (u : String)
    (hp : ps[i]? = some p) (hu : p.amazonUrl = some u) (hne : u ≠ "") :
    (enrichProductsWithAmazon searchFn configured maxProducts ps).1[i]? = some p := by
  have htr : jsTruthyStr p.amazonUrl = true := by
    rw [hu]; simp [jsTruthyStr, hne]
  unfold enrichProductsWithAmazon
  by_cases hc : configured
  · simp only [hc, Bool.not_true, if_false]
    exact enrichLoop_keeps_truthy searchFn maxProducts ps 0 i p hp htr
  · simp only [Bool.not_eq_true] at hc
    rw [hc]
    simpa using hp

/-- C6 witness: the CeraVe record of Scenario A, which already carries its
`amzn.to` link, passes through enrichment untouched even though the
search function would find a product. -/
theorem enrich_never_overwrites_explicit_link_witness :
    (enrichProductsWithAmazon
      (fun _ => some ⟨"B0X", "X", "https://www.amazon.com/dp/B0X", none, none, true⟩)
      true 50 [scenarioACeraVeRecord]).1[0]? = some scenarioACeraVeRecord :=
  enrich_never_overwrites_explicit_link _ true 50 [scenarioACeraVeRecord] 0
    scenarioACeraVeRecord "https://amzn.to/xyz789" (by rfl) (by rfl) (by decide)

/-- C10: `enrichProductsWithAmazon` touches only the first `maxProducts`
elements — every product at index ≥ `maxProducts` is returned exactly as
passed in, and every issued search is for an index < `maxProducts`. -/
theorem enrich_only_first_maxProducts
    (searchFn : String → Option AmazonResult) (configured : Bool)
    (maxProducts : Nat) (ps : List ExtractedProduct) (i : Nat)
    (hge : maxProducts ≤ i) :
    (enrichProductsWithAmazon searchFn configured maxProducts ps).1[i]? = ps[i]? ∧
    (∀ e ∈ (enrichProductsWithAmazon searchFn configured maxProducts ps).2,
      e.1 < maxProducts) := by
  unfold enrichProductsWithAmazon
  by_cases hc : configured
  · simp only [hc, Bool.not_true, if_false]
    exact ⟨enrichLoop_beyond_id searchFn maxProducts ps 0 i (by omega),
           enrichLoop_searched_lt searchFn maxProducts ps 0⟩
  · simp only [Bool.not_eq_true] at hc
    rw [hc]
    simp

/-- C10 witness: with `maxProducts := 1`, the second product — which lacks
a retail link and would otherwise be searched — comes back unchanged and
no search is issued for it. -/
theorem enrich_only_first_maxProducts_witness :
    (enrichProductsWithAmazon (fun _ => none) true 1
       [scenarioACeraVeRecord, scenarioAFarmacyRecord]).1[1]? =
      some scenarioAFarmacyRecord ∧
    (∀ e ∈ (enrichProductsWithAmazon (fun _ => none) true 1
       [scenarioACeraVeRecord, scenarioAFarmacyRecord]).2, e.1 < 1) := by
  have h := enrich_only_first_maxProducts (fun _ => none) true 1
    [scenarioACeraVeRecord, scenarioAFarmacyRecord] 1 (by decide)
  exact ⟨h.1, h.2⟩

/-! ## Claim C8 — brand directory failure semantics -/

theorem insertByLenDesc_ne_nil (x : String) (l : List String) :
    insertByLenDesc x l ≠ [] := by
  cases l with
  | nil => simp [insertByLenDesc]
  | cons y t =>
    unfold insertByLenDesc
    split <;> simp

theorem FALLBACK_BRANDS_ne_nil : FALLBACK_BRANDS ≠ [] := by
  unfold FALLBACK_BRANDS fallbackBrandsList sortByLenDesc
  rw [List.foldr_cons]
  exact insertByLenDesc_ne_nil _ _

/-- C8 counterexample: the claim says `getBrands` returns a non-empty list
for every remote-fetch outcome, but a successful fetch whose records
flatten to no usable name — here one record with `name` and `aliases`
both absent — makes `getBrands` return (and cache) the empty list: the
inner `if (brands && brands.length > 0)` guard tests the record count,
not the flattened name count. -/
theorem getBrands_empty_on_unusable_success :
    (getBrands 1000 true (FetchOutcome.ok [⟨none, none⟩]) ⟨none, none⟩).brands = [] := by
  decide

/-- C8 (amended): `getBrands` never throws (the embedding is total); on
fetch failure or an empty (zero-record) result it returns the non-empty
static fallback list and still refreshes the cache timestamp, so any
call within the TTL serves the cached fallback without re-fetching.  A
successful fetch whose records flatten to no usable name, however,
returns the empty list (see the counterexample). -/
theorem getBrands_failure_falls_back
    (now : Nat) (st : BrandsState) (outcome : FetchOutcome)
    (hstale : brandsCacheFresh st now = false)
    (hout : outcome = .err ∨ outcome = .ok [])
    (hnz : now ≠ 0) :
    (getBrands now true outcome st).brands = FALLBACK_BRANDS ∧
    (getBrands now true outcome st).brands ≠ [] ∧
    (getBrands now true outcome st).state =
      ⟨some FALLBACK_BRANDS, some now⟩ ∧
    (getBrands now true outcome st).fetchAttempted = true ∧
    (∀ (now2 : Nat) (outcome2 : FetchOutcome), now2 - now < CACHE_DURATION_MS →
      (getBrands now2 true outcome2 (getBrands now true outcome st).state).brands =
        FALLBACK_BRANDS ∧
      (getBrands now2 true outcome2 (getBrands now true outcome st).state).fetchAttempted =
        false) := by
  have hmain : getBrands now true outcome st =
      ⟨FALLBACK_BRANDS, ⟨some FALLBACK_BRANDS, some now⟩, true⟩ := by
    rcases hout with h | h <;> subst h <;>
      · unfold getBrands
        rw [hstale]
        simp
  rw [hmain]
  refine ⟨rfl, FALLBACK_BRANDS_ne_nil, rfl, rfl, ?_⟩
  intro now2 outcome2 h2
  have hfresh : brandsCacheFresh ⟨some FALLBACK_BRANDS, some now⟩ now2 = true := by
    unfold brandsCacheFresh
    simp [hnz, h2]
  unfold getBrands
  rw [hfresh]
  simp

/-- C8 witness: a failed fetch at clock 1000 falls back to the static list,
and a call at clock 1500 (within the 30-minute TTL) serves it from cache
without attempting a fetch. -/
theorem getBrands_failure_falls_back_witness :
    (getBrands 1000 true FetchOutcome.err ⟨none, none⟩).brands = FALLBACK_BRANDS ∧
    (getBrands 1000 true FetchOutcome.err ⟨none, none⟩).brands ≠ [] ∧
    (getBrands 1500 true (FetchOutcome.ok [])
       (getBrands 1000 true FetchOutcome.err ⟨none, none⟩).state).fetchAttempted = false := by
  have h := getBrands_failure_falls_back 1000 ⟨none, none⟩ FetchOutcome.err
    (by decide) (Or.inl rfl) (by decide)
  exact ⟨h.1, h.2.1, (h.2.2.2.2 1500 (FetchOutcome.ok []) (by decide)).2⟩

/-! ## Claim C4 -- brand prefix precedence -/

/-- If some brand in a length-descending list has an anchored match on the
candidate, the loop's winner is at least as long as that brand. -/
theorem brandLoop_ge_of_matching :
    ∀ (bs : List String) (nm : List Char) (B : String),
      bs.Pairwise (fun x y => y.length ≤ x.length) →
      B ∈ bs → anchoredBrandMatch B nm = true →
      ∃ b r, brandLoop bs nm = some (b, r) ∧ B.length ≤ b.length := by
  intro bs
  induction bs with
  | nil => intro nm B _ hB _; simp at hB
  | cons a t ih =>
    intro nm B hpw hB hm
    unfold brandLoop
    by_cases ha : anchoredBrandMatch a nm = true
    · refine ⟨a, brandRemainder a nm, by rw [ha]; simp, ?_⟩
      rcases List.mem_cons.mp hB with rfl | hBt
      · exact Nat.le_refl _
      · exact (List.pairwise_cons.mp hpw).1 B hBt
    · have hBt : B ∈ t := by
        rcases List.mem_cons.mp hB with rfl | hBt
        · exact absurd hm ha
        · exact hBt
      obtain ⟨b, r, heq, hle⟩ := ih nm B (List.pairwise_cons.mp hpw).2 hBt hm
      refine ⟨b, r, ?_, hle⟩
      rw [Bool.not_eq_true] at ha
      rw [ha]
      simpa using heq

/-- When no brand matches, the loop returns `none`. -/
theorem brandLoop_none_of_no_match :
    ∀ (bs : List String) (nm : List Char),
      (∀ b ∈ bs, anchoredBrandMatch b nm = false) →
      brandLoop bs nm = none := by
  intro bs
  induction bs with
  | nil => intro nm _; rfl
  | cons a t ih =>
    intro nm h
    unfold brandLoop
    rw [h a (List.mem_cons_self a t)]
    simp only [Bool.false_eq_true, if_false]
    exact ih nm (fun b hb => h b (List.mem_cons_of_mem a hb))

/-- C4: the brand/name split picks the first entry of the length-descending
brand list with a case-insensitive anchored-prefix-plus-white-space
match, so whenever some brand `B` matches, no strictly shorter brand
`A` can be the result -- in particular, for the proper-prefix pair
"Benefit" / "Benefit Cosmetics", parsing
"Benefit Cosmetics Foundation - http://x" yields brand
"Benefit Cosmetics"; and when no brand matches, the brand is "Unknown"
and the name is the full cleaned candidate. -/
theorem extractBrandAndName_longest_match_wins :
    (∀ (bs : List String) (s : String) (A B : String),
      bs.Pairwise (fun x y => y.length ≤ x.length) →
      A ∈ bs → B ∈ bs → A.length < B.length →
      anchoredBrandMatch B (preBrandCleanup s) = true →
      (extractBrandAndName s bs).1 ≠ A) ∧
    ((extractProductsFromDescription
        "PRODUCTS:\nBenefit Cosmetics Foundation - http://x"
        FALLBACK_BRANDS).map (fun p => p.brand) = ["Benefit Cosmetics"]) ∧
    (∀ (bs : List String) (s : String),
      (∀ b ∈ bs, anchoredBrandMatch b (preBrandCleanup s) = false) →
      (extractBrandAndName s bs).1 = "Unknown" ∧
      (extractBrandAndName s bs).2 = ⟨postBrandCleanup (preBrandCleanup s)⟩) := by
  refine ⟨?_, by decide, ?_⟩
  · intro bs s A B hpw hA hB hlt hm
    obtain ⟨b, r, heq, hle⟩ := brandLoop_ge_of_matching bs (preBrandCleanup s) B hpw hB hm
    unfold extractBrandAndName
    rw [heq]
    intro hcontra
    simp only at hcontra
    subst hcontra
    omega
  · intro bs s h
    unfold extractBrandAndName
    rw [brandLoop_none_of_no_match bs (preBrandCleanup s) h]
    exact ⟨rfl, rfl⟩

/-- C4 witness: the precedence theorem applied to the fallback list (which
is length-sorted and holds both "Benefit" and "Benefit Cosmetics"), and
the no-match clause applied to a candidate matching no brand. -/
theorem extractBrandAndName_longest_match_wins_witness :
    (extractBrandAndName "Benefit Cosmetics Foundation" FALLBACK_BRANDS).1 ≠ "Benefit" ∧
    (extractBrandAndName "Mystery Widget Thing" ["Farmacy"]).1 = "Unknown" := by
  constructor
  · exact extractBrandAndName_longest_match_wins.1 FALLBACK_BRANDS
      "Benefit Cosmetics Foundation" "Benefit" "Benefit Cosmetics"
      (by decide) (by decide) (by decide) (by decide) (by decide)
  · exact (extractBrandAndName_longest_match_wins.2.2 ["Farmacy"]
      "Mystery Widget Thing" (by decide)).1

/-! ## Claim C3 -- reconciliation dedup -/

theorem dedupKey_of_url {p : ExtractedProduct} (h : p.originalUrl ≠ "") :
    dedupKey p = p.originalUrl := by
  unfold dedupKey
  rw [if_pos h]

/-- Once a URL key is in `seen`, no record with that URL survives. -/
theorem removeDupsGo_filter_none :
    ∀ (ps : List ExtractedProduct) (seen : List String) (u : String),
      (∀ p ∈ ps, p.originalUrl ≠ "") →
      seen.contains u = true →
      (removeDupsGo seen ps).filter (fun p => p.originalUrl = u) = [] := by
  intro ps
  induction ps with
  | nil => intro seen u _ _; rfl
  | cons p t ih =>
    intro seen u hne hc
    have hkey := dedupKey_of_url (hne p (List.mem_cons_self p t))
    have hnet : ∀ q ∈ t, q.originalUrl ≠ "" :=
      fun q hq => hne q (List.mem_cons_of_mem p hq)
    unfold removeDupsGo
    by_cases hseen : seen.contains (dedupKey p) = true
    · rw [hseen]
      simp only [if_true]
      exact ih seen u hnet hc
    · rw [Bool.not_eq_true] at hseen
      rw [hseen]
      simp only [Bool.false_eq_true, if_false]
      have hpu : p.originalUrl ≠ u := by
        intro h
        rw [← h, ← hkey] at hc
        rw [hc] at hseen
        exact Bool.noConfusion hseen
      rw [List.filter_cons_of_neg (by simpa using hpu)]
      refine ih (dedupKey p :: seen) u hnet ?_
      simp only [List.contains_cons, hc, Bool.or_true]

/-- With the URL key not yet seen, exactly the first record carrying that
URL survives, with all its fields. -/
theorem removeDupsGo_filter_first :
    ∀ (ps : List ExtractedProduct) (seen : List String) (u : String),
      (∀ p ∈ ps, p.originalUrl ≠ "") →
      seen.contains u = false →
      (removeDupsGo seen ps).filter (fun p => p.originalUrl = u) =
        (ps.find? (fun p => p.originalUrl = u)).toList := by
  intro ps
  induction ps with
  | nil => intro seen u _ _; rfl
  | cons p t ih =>
    intro seen u hne hc
    have hkey := dedupKey_of_url (hne p (List.mem_cons_self p t))
    have hnet : ∀ q ∈ t, q.originalUrl ≠ "" :=
      fun q hq => hne q (List.mem_cons_of_mem p hq)
    unfold removeDupsGo
    by_cases hpu : p.originalUrl = u
    · have hfind : (p :: t).find? (fun q => q.originalUrl = u) = some p := by
        rw [List.find?_cons_of_pos]
        simpa using hpu
      rw [hfind]
      by_cases hseen : seen.contains (dedupKey p) = true
      · exfalso
        rw [hkey, hpu] at hseen
        rw [hc] at hseen
        exact Bool.noConfusion hseen
      · rw [Bool.not_eq_true] at hseen
        rw [hseen]
        simp only [Bool.false_eq_true, if_false]
        rw [List.filter_cons_of_pos (by simpa using hpu)]
        rw [removeDupsGo_filter_none t (dedupKey p :: seen) u hnet
          (by simp only [List.contains_cons, hkey, hpu, beq_self_eq_true, Bool.true_or])]
        rfl
    · have hfind : (p :: t).find? (fun q => q.originalUrl = u) =
          t.find? (fun q => q.originalUrl = u) := by
        rw [List.find?_cons_of_neg]
        simpa using hpu
      rw [hfind]
      by_cases hseen : seen.contains (dedupKey p) = true
      · rw [hseen]
        simp only [if_true]
        exact ih seen u hnet hc
      · rw [Bool.not_eq_true] at hseen
        rw [hseen]
        simp only [Bool.false_eq_true, if_false]
        rw [List.filter_cons_of_neg (by simpa using hpu)]
        refine ih (dedupKey p :: seen) u hnet ?_
        have hne2 : (u == dedupKey p) = false := by
          rw [hkey]
          exact beq_eq_false_iff_ne.mpr (Ne.symm hpu)
        simp only [List.contains_cons, hne2, hc, Bool.or_self]

/-- The dedup filter only drops elements, preserving relative order. -/
theorem removeDupsGo_sublist :
    ∀ (ps : List ExtractedProduct) (seen : List String),
      (removeDupsGo seen ps).Sublist ps := by
  intro ps
  induction ps with
  | nil => intro seen; exact List.Sublist.refl []
  | cons p t ih =>
    intro seen
    unfold removeDupsGo
    by_cases hseen : seen.contains (dedupKey p) = true
    · rw [hseen]
      simp only [if_true]
      exact (ih seen).cons p
    · rw [Bool.not_eq_true] at hseen
      rw [hseen]
      simp only [Bool.false_eq_true, if_false]
      exact (ih (dedupKey p :: seen)).cons₂ p

/-- The dedup keys of the output are pairwise distinct and disjoint from
`seen`. -/
theorem removeDupsGo_keys_nodup :
    ∀ (ps : List ExtractedProduct) (seen : List String),
      ((removeDupsGo seen ps).map dedupKey).Nodup ∧
      (∀ k ∈ (removeDupsGo seen ps).map dedupKey, seen.contains k = false) := by
  intro ps
  induction ps with
  | nil => intro seen; exact ⟨List.nodup_nil, by intro k hk; simp [removeDupsGo] at hk⟩
  | cons p t ih =>
    intro seen
    unfold removeDupsGo
    by_cases hseen : seen.contains (dedupKey p) = true
    · rw [hseen]
      simp only [if_true]
      exact ih seen
    · rw [Bool.not_eq_true] at hseen
      rw [hseen]
      simp only [Bool.false_eq_true, if_false, List.map_cons]
      obtain ⟨ihnd, ihseen⟩ := ih (dedupKey p :: seen)
      constructor
      · rw [List.nodup_cons]
        refine ⟨?_, ihnd⟩
        intro hmem
        have := ihseen (dedupKey p) hmem
        simp only [List.contains_cons, beq_self_eq_true, Bool.true_or] at this
        exact Bool.noConfusion this
      · intro k hk
        rcases List.mem_cons.mp hk with rfl | hk
        · exact hseen
        · have := ihseen k hk
          simp only [List.contains_cons, Bool.or_eq_false_iff] at this
          exact this.2

/-- C3: for any candidate list whose records carry (non-empty) original
URLs, the deduplicated output holds, for each URL, exactly the first
record of the input with that URL (all field values retained; later
duplicates silently dropped); the output is a sublist of the input
(original relative order of first occurrences preserved); and output
dedup keys -- `originalUrl` when present, else the lowercased
"brand-name" string -- are pairwise distinct. -/
theorem removeDuplicates_by_originalUrl :
    (∀ (ps : List ExtractedProduct) (u : String),
      (∀ p ∈ ps, p.originalUrl ≠ "") →
      (removeDuplicates ps).filter (fun p => p.originalUrl = u) =
        (ps.find? (fun p => p.originalUrl = u)).toList) ∧
    (∀ ps : List ExtractedProduct, (removeDuplicates ps).Sublist ps) ∧
    (∀ ps : List ExtractedProduct, ((removeDuplicates ps).map dedupKey).Nodup) := by
  refine ⟨?_, ?_, ?_⟩
  · intro ps u hne
    exact removeDupsGo_filter_first ps [] u hne rfl
  · intro ps
    exact removeDupsGo_sublist ps []
  · intro ps
    exact (removeDupsGo_keys_nodup ps []).1

/-- C3 witness: two candidates sharing the Farmacy ShopMy URL collapse to
the first-seen record. -/
theorem removeDuplicates_by_originalUrl_witness :
    (removeDuplicates [scenarioAFarmacyRecord, scenarioACeraVeRecord,
        { scenarioAFarmacyRecord with name := "Duplicate Of The Balm" }]).filter
      (fun p => p.originalUrl = "https://go.shopmy.us/abc123") =
      [scenarioAFarmacyRecord] := by
  rw [removeDuplicates_by_originalUrl.1
    [scenarioAFarmacyRecord, scenarioACeraVeRecord,
      { scenarioAFarmacyRecord with name := "Duplicate Of The Balm" }]
    "https://go.shopmy.us/abc123" (by decide)]
  decide

/-! ## Claim C5 -- separator stripping: list toolkit -/

theorem head?_dropWhile_false (p : Char → Bool) :
    ∀ (l : List Char) (c : Char), (l.dropWhile p).head? = some c → p c = false := by
  intro l
  induction l with
  | nil => intro c h; simp at h
  | cons a t ih =>
    intro c h
    rw [List.dropWhile_cons] at h
    by_cases ha : p a = true
    · rw [if_pos ha] at h
      exact ih c h
    · rw [Bool.not_eq_true] at ha
      rw [ha] at h
      simp only [Bool.false_eq_true, if_false, List.head?_cons, Option.some_inj] at h
      rw [← h]
      exact ha

theorem dropWhile_eq_self_of_head (p : Char → Bool) (l : List Char)
    (h : ∀ c, l.head? = some c → p c = false) : l.dropWhile p = l := by
  cases l with
  | nil => rfl
  | cons a t =>
    rw [List.dropWhile_cons, h a rfl]
    simp

theorem dropWhile_append_of_all (p : Char → Bool) :
    ∀ (xs ys : List Char), (∀ x ∈ xs, p x = true) →
      (xs ++ ys).dropWhile p = ys.dropWhile p := by
  intro xs
  induction xs with
  | nil => intro ys _; rfl
  | cons a t ih =>
    intro ys h
    rw [List.cons_append, List.dropWhile_cons, if_pos (h a (List.mem_cons_self a t))]
    exact ih ys (fun x hx => h x (List.mem_cons_of_mem a hx))

theorem dropWhile_append_of_ne_nil (p : Char → Bool) :
    ∀ (xs ys : List Char), xs.dropWhile p ≠ [] →
      (xs ++ ys).dropWhile p = xs.dropWhile p ++ ys := by
  intro xs
  induction xs with
  | nil => intro ys h; exact absurd rfl h
  | cons a t ih =>
    intro ys h
    by_cases ha : p a = true
    · rw [List.dropWhile_cons, if_pos ha] at h
      rw [List.cons_append, List.dropWhile_cons, if_pos ha,
          List.dropWhile_cons, if_pos ha]
      exact ih ys h
    · rw [Bool.not_eq_true] at ha
      rw [List.cons_append, List.dropWhile_cons, ha, List.dropWhile_cons, ha]
      simp

theorem getLast?_dropWhile_of_ne_nil (p : Char → Bool) (l : List Char)
    (h : l.dropWhile p ≠ []) : (l.dropWhile p).getLast? = l.getLast? := by
  conv_rhs => rw [← List.takeWhile_append_dropWhile (p := p) (l := l)]
  rw [List.getLast?_append_of_ne_nil _ h]

theorem getLast?_mem' {l : List Char} {c : Char} (h : l.getLast? = some c) : c ∈ l :=
  List.mem_of_mem_getLast? h

/-! trailing-side helpers -/

theorem dropTrailWs_getLast_not_ws (l : List Char) (c : Char)
    (h : (dropTrailWs l).getLast? = some c) : isSpaceJS c = false := by
  unfold dropTrailWs at h
  rw [List.getLast?_reverse] at h
  exact head?_dropWhile_false isSpaceJS l.reverse c h

theorem dropTrailWs_eq_self (l : List Char)
    (h : ∀ c, l.getLast? = some c → isSpaceJS c = false) : dropTrailWs l = l := by
  unfold dropTrailWs
  rw [dropWhile_eq_self_of_head isSpaceJS l.reverse
    (fun c hc => h c (by rwa [List.head?_reverse] at hc)), List.reverse_reverse]

theorem dropTrailDashes_eq_self (l : List Char)
    (h : ∀ c, l.getLast? = some c → isDashChar c = false) : dropTrailDashes l = l := by
  unfold dropTrailDashes
  rw [dropWhile_eq_self_of_head isDashChar l.reverse
    (fun c hc => h c (by rwa [List.head?_reverse] at hc)), List.reverse_reverse]

theorem dropTrailWs_append_ws (l w : List Char)
    (hw : ∀ c ∈ w, isSpaceJS c = true) : dropTrailWs (l ++ w) = dropTrailWs l := by
  unfold dropTrailWs
  rw [List.reverse_append, dropWhile_append_of_all isSpaceJS w.reverse l.reverse
    (fun c hc => hw c (List.mem_reverse.mp hc))]

theorem dropTrailDashes_append_dashes (l d : List Char)
    (hd : ∀ c ∈ d, isDashChar c = true) :
    dropTrailDashes (l ++ d) = dropTrailDashes l := by
  unfold dropTrailDashes
  rw [List.reverse_append, dropWhile_append_of_all isDashChar d.reverse l.reverse
    (fun c hc => hd c (List.mem_reverse.mp hc))]

theorem dropTrailWs_sublist (l : List Char) : (dropTrailWs l).Sublist l := by
  unfold dropTrailWs
  have := (List.dropWhile_sublist (l := l.reverse) (p := isSpaceJS)).reverse
  rwa [List.reverse_reverse] at this

theorem dropTrailDashes_sublist (l : List Char) : (dropTrailDashes l).Sublist l := by
  unfold dropTrailDashes
  have := (List.dropWhile_sublist (l := l.reverse) (p := isDashChar)).reverse
  rwa [List.reverse_reverse] at this

theorem trimL_sublist (l : List Char) : (trimL l).Sublist l := by
  unfold trimL
  exact (dropTrailWs_sublist _).trans (List.dropWhile_sublist isSpaceJS)

theorem stripTrailingDashOnceBy_sublist (dash : Char → Bool) (l : List Char) :
    (stripTrailingDashOnceBy dash l).Sublist l := by
  unfold stripTrailingDashOnceBy
  dsimp only
  cases hl : (dropTrailWs l).getLast? with
  | none => exact List.Sublist.refl l
  | some c =>
    dsimp only
    by_cases hc : dash c = true
    · rw [hc]
      simp only [if_true]
      exact ((dropTrailWs_sublist _).trans
        ((List.dropLast_sublist _).trans (dropTrailWs_sublist l)))
    · rw [Bool.not_eq_true] at hc
      rw [hc]
      simp

theorem stripTrailingDashOnce_sublist (l : List Char) :
    (stripTrailingDashOnce l).Sublist l := by
  unfold stripTrailingDashOnce
  exact stripTrailingDashOnceBy_sublist isDashChar l

/-! character-class facts -/

theorem isDashChar_not_space {c : Char} (h : isDashChar c = true) :
    isSpaceJS c = false := by
  unfold isDashChar at h
  rcases Bool.or_eq_true_iff.mp h with h' | h''
  · rcases Bool.or_eq_true_iff.mp h' with h1 | h2
    · rw [of_decide_eq_true h1]; decide
    · rw [of_decide_eq_true h2]; decide
  · rw [of_decide_eq_true h'']; decide

theorem isSpaceJS_not_dash {c : Char} (h : isSpaceJS c = true) :
    isDashChar c = false := by
  by_cases hd : isDashChar c = true
  · rw [isDashChar_not_space hd] at h
    exact Bool.noConfusion h
  · exact Bool.not_eq_true _ ▸ hd

/-! no-op lemmas -/

theorem stripTrailingDashOnceBy_eq_self (dash : Char → Bool) (l : List Char)
    (h : ∀ c, l.getLast? = some c → isSpaceJS c = false ∧ dash c = false) :
    stripTrailingDashOnceBy dash l = l := by
  unfold stripTrailingDashOnceBy
  dsimp only
  rw [dropTrailWs_eq_self l (fun c hc => (h c hc).1)]
  cases hl : l.getLast? with
  | none => rfl
  | some c =>
    dsimp only
    rw [(h c hl).2]
    simp

theorem trimL_eq_self (l : List Char)
    (hh : ∀ c, l.head? = some c → isSpaceJS c = false)
    (hl : ∀ c, l.getLast? = some c → isSpaceJS c = false) : trimL l = l := by
  unfold trimL
  rw [dropWhile_eq_self_of_head isSpaceJS l hh, dropTrailWs_eq_self l hl]

theorem stripTrailingDashRun_eq_self (l : List Char)
    (h : ∀ c, l.getLast? = some c → isSpaceJS c = false ∧ isDashChar c = false) :
    stripTrailingDashRun l = l := by
  unfold stripTrailingDashRun
  dsimp only
  rw [dropTrailWs_eq_self l (fun c hc => (h c hc).1)]
  cases hl : l.getLast? with
  | none => rfl
  | some c =>
    dsimp only
    rw [(h c hl).2]
    simp

theorem stripLeadingDashRun_eq_self (l : List Char)
    (h : ∀ c, l.head? = some c → isSpaceJS c = false ∧ isDashChar c = false) :
    stripLeadingDashRun l = l := by
  unfold stripLeadingDashRun
  rw [dropWhile_eq_self_of_head isSpaceJS l (fun c hc => (h c hc).1)]
  dsimp only
  cases l with
  | nil => rfl
  | cons a t =>
    dsimp only
    rw [(h a rfl).2]
    simp

theorem cleanProductText_eq_self (l : List Char)
    (hh : ∀ c, l.head? = some c → isSpaceJS c = false ∧ isDashChar c = false)
    (hl : ∀ c, l.getLast? = some c → isSpaceJS c = false ∧ isDashChar c = false) :
    cleanProductText l = l := by
  unfold cleanProductText
  rw [trimL_eq_self l (fun c hc => (hh c hc).1) (fun c hc => (hl c hc).1),
      stripTrailingDashRun_eq_self l hl, stripLeadingDashRun_eq_self l hh,
      trimL_eq_self l (fun c hc => (hh c hc).1) (fun c hc => (hl c hc).1)]

/-! last-character propagation -/

theorem lastProp_of_suffix (l m : List Char) (R : Char → Prop)
    (hm : ∃ pre, l = pre ++ m) (h : ∀ c, l.getLast? = some c → R c) :
    ∀ c, m.getLast? = some c → R c := by
  intro c hc
  obtain ⟨pre, rfl⟩ := hm
  have hne : m ≠ [] := by
    intro h0
    rw [h0] at hc
    simp at hc
  apply h
  rw [List.getLast?_append_of_ne_nil _ hne]
  exact hc

theorem lastProp_dropWhile (p : Char → Bool) (l : List Char) (R : Char → Prop)
    (h : ∀ c, l.getLast? = some c → R c) :
    ∀ c, (l.dropWhile p).getLast? = some c → R c :=
  lastProp_of_suffix l (l.dropWhile p) R
    ⟨l.takeWhile p, (List.takeWhile_append_dropWhile (p := p) (l := l)).symm⟩ h

theorem lastProp_trimL (l : List Char) (Q : Char → Prop)
    (h : ∀ c, l.getLast? = some c → Q c ∧ isSpaceJS c = false) :
    ∀ c, (trimL l).getLast? = some c → Q c ∧ isSpaceJS c = false := by
  intro c hc
  unfold trimL at hc
  by_cases hnil : l.dropWhile isSpaceJS = []
  · rw [hnil] at hc
    simp [dropTrailWs] at hc
  · have hgl := getLast?_dropWhile_of_ne_nil isSpaceJS l hnil
    rw [dropTrailWs_eq_self _ (fun c2 hc2 => (h c2 (hgl ▸ hc2)).2), hgl] at hc
    exact h c hc

theorem getLast?_filter_of_last (p : Char → Bool) (l : List Char) (c : Char)
    (hc : l.getLast? = some c) (hpc : p c = true) :
    (l.filter p).getLast? = some c := by
  rw [← List.head?_reverse] at hc ⊢
  rw [← List.filter_reverse]
  cases hr : l.reverse with
  | nil => rw [hr] at hc; simp at hc
  | cons a t =>
    rw [hr] at hc
    simp only [List.head?_cons, Option.some_inj] at hc
    subst hc
    rw [List.filter_cons_of_pos hpc]
    rfl

theorem dropCI_suffix :
    ∀ (pat l r : List Char), dropCI pat l = some r → ∃ pre, l = pre ++ r := by
  intro pat
  induction pat with
  | nil =>
    intro l r h
    unfold dropCI at h
    rw [Option.some_inj] at h
    exact ⟨[], by rw [h]; rfl⟩
  | cons p ps ih =>
    intro l r h
    cases l with
    | nil => exact absurd h (by unfold dropCI; simp)
    | cons c cs =>
      unfold dropCI at h
      by_cases hpc : lowerEq p c = true
      · rw [if_pos hpc] at h
        obtain ⟨pre, hpre⟩ := ih cs r h
        exact ⟨c :: pre, by rw [List.cons_append, ← hpre]⟩
      · rw [Bool.not_eq_true] at hpc
        rw [hpc] at h
        simp at h

/-! padded-candidate computation -/

theorem getLast?_exists_of_ne_nil {l : List Char} (h : l ≠ []) :
    ∃ c, l.getLast? = some c := by
  cases hl : l.getLast? with
  | none => exact absurd (List.getLast?_eq_none_iff.mp hl) h
  | some c => exact ⟨c, rfl⟩

theorem cleanProductText_padded (base w1 ds w2 : List Char)
    (hw1 : ∀ c ∈ w1, isSpaceJS c = true) (hds : ∀ c ∈ ds, isDashChar c = true)
    (hw2 : ∀ c ∈ w2, isSpaceJS c = true) (hbase : base ≠ [])
    (hlast : ∀ c, base.getLast? = some c → isSpaceJS c = false ∧ isDashChar c = false) :
    cleanProductText (base ++ (w1 ++ (ds ++ w2))) =
      trimL (stripLeadingDashRun (base.dropWhile isSpaceJS)) := by
  obtain ⟨cb, hcb⟩ := getLast?_exists_of_ne_nil hbase
  have hBne : base.dropWhile isSpaceJS ≠ [] := by
    intro h0
    rw [List.dropWhile_eq_nil_iff] at h0
    have hws := h0 cb (getLast?_mem' hcb)
    rw [(hlast cb hcb).1] at hws
    exact Bool.noConfusion hws
  have hBlast : (base.dropWhile isSpaceJS).getLast? = base.getLast? :=
    getLast?_dropWhile_of_ne_nil isSpaceJS base hBne
  have e1 : (base ++ (w1 ++ (ds ++ w2))).dropWhile isSpaceJS
      = base.dropWhile isSpaceJS ++ (w1 ++ (ds ++ w2)) :=
    dropWhile_append_of_ne_nil isSpaceJS base _ hBne
  set B := base.dropWhile isSpaceJS with hB
  have hBlast2 : ∀ c, B.getLast? = some c → isSpaceJS c = false ∧ isDashChar c = false := by
    intro c hc
    rw [hBlast] at hc
    exact hlast c hc
  have htrim : trimL (base ++ (w1 ++ (ds ++ w2)))
      = dropTrailWs (B ++ (w1 ++ (ds ++ w2))) := by
    unfold trimL
    rw [e1]
  have e2 : stripTrailingDashRun (dropTrailWs (B ++ (w1 ++ (ds ++ w2)))) = B := by
    by_cases hds0 : ds = []
    · subst hds0
      have hstep : dropTrailWs (B ++ (w1 ++ ([] ++ w2))) = B := by
        rw [List.nil_append,
            show B ++ (w1 ++ w2) = (B ++ w1) ++ w2 from (List.append_assoc _ _ _).symm,
            dropTrailWs_append_ws _ w2 hw2, dropTrailWs_append_ws _ w1 hw1,
            dropTrailWs_eq_self B (fun c hc => (hBlast2 c hc).1)]
      rw [hstep, stripTrailingDashRun_eq_self B hBlast2]
    · obtain ⟨d, hd⟩ := getLast?_exists_of_ne_nil hds0
      have hdd : isDashChar d = true := hds d (getLast?_mem' hd)
      have assoc : B ++ (w1 ++ (ds ++ w2)) = ((B ++ w1) ++ ds) ++ w2 := by
        simp [List.append_assoc]
      have hlastT : ((B ++ w1) ++ ds).getLast? = some d := by
        rw [List.getLast?_append_of_ne_nil _ hds0]
        exact hd
      have e2a : dropTrailWs (B ++ (w1 ++ (ds ++ w2))) = (B ++ w1) ++ ds := by
        rw [assoc, dropTrailWs_append_ws _ w2 hw2,
            dropTrailWs_eq_self _ (fun c hc => by
              rw [hlastT, Option.some_inj] at hc
              rw [← hc]
              exact isDashChar_not_space hdd)]
      have hw1dash : ∀ c, (B ++ w1).getLast? = some c → isDashChar c = false := by
        intro c hc
        by_cases hw1nil : w1 = []
        · subst hw1nil
          rw [List.append_nil] at hc
          exact (hBlast2 c hc).2
        · rw [List.getLast?_append_of_ne_nil _ hw1nil] at hc
          exact isSpaceJS_not_dash (hw1 c (getLast?_mem' hc))
      have hrun : stripTrailingDashRun ((B ++ w1) ++ ds) = B := by
        unfold stripTrailingDashRun
        dsimp only
        rw [dropTrailWs_eq_self _ (fun c hc => by
              rw [hlastT, Option.some_inj] at hc
              rw [← hc]
              exact isDashChar_not_space hdd),
            hlastT]
        dsimp only
        rw [hdd]
        simp only [if_true]
        rw [dropTrailDashes_append_dashes _ ds hds,
            dropTrailDashes_eq_self _ hw1dash,
            dropTrailWs_append_ws _ w1 hw1,
            dropTrailWs_eq_self B (fun c hc => (hBlast2 c hc).1)]
      rw [e2a, hrun]
  unfold cleanProductText
  rw [htrim, e2]

/-! propagation into the emitted name -/

theorem lastProp_stripLeadingDashRun (l : List Char) (R : Char → Prop)
    (h : ∀ c, l.getLast? = some c → R c) :
    ∀ c, (stripLeadingDashRun l).getLast? = some c → R c := by
  unfold stripLeadingDashRun
  dsimp only
  cases hr : l.dropWhile isSpaceJS with
  | nil => exact h
  | cons a t =>
    dsimp only
    by_cases ha : isDashChar a = true
    · rw [ha]
      simp only [if_true]
      have h1 : ∀ c, ((a :: t) : List Char).getLast? = some c → R c := by
        rw [← hr]
        exact lastProp_dropWhile isSpaceJS l R h
      exact lastProp_dropWhile isSpaceJS _ R (lastProp_dropWhile isDashChar _ R h1)
    · rw [Bool.not_eq_true] at ha
      rw [ha]
      simp only [Bool.false_eq_true, if_false]
      exact h

theorem brandLoop_shape :
    ∀ (bs : List String) (nm : List Char) (b : String) (r : List Char),
      brandLoop bs nm = some (b, r) → r = brandRemainder b nm := by
  intro bs
  induction bs with
  | nil => intro nm b r h; exact absurd h (by unfold brandLoop; simp)
  | cons a t ih =>
    intro nm b r h
    unfold brandLoop at h
    by_cases ha : anchoredBrandMatch a nm = true
    · rw [ha] at h
      simp only [if_true, Option.some_inj, Prod.mk.injEq] at h
      rw [← h.1]
      exact h.2.symm
    · rw [Bool.not_eq_true] at ha
      rw [ha] at h
      simp only [Bool.false_eq_true, if_false] at h
      exact ih nm b r h

theorem lastProp_brandRemainder (b : String) (nm : List Char) (Q : Char → Prop)
    (h : ∀ c, nm.getLast? = some c → Q c ∧ isSpaceJS c = false) :
    ∀ c, (brandRemainder b nm).getLast? = some c → Q c ∧ isSpaceJS c = false := by
  unfold brandRemainder
  apply lastProp_trimL
  apply lastProp_dropWhile
  cases hd : dropCI b.data nm with
  | none => simpa using h
  | some r0 =>
    simp only [Option.getD_some]
    exact lastProp_of_suffix nm r0 _ (dropCI_suffix b.data nm r0 hd) h

theorem lastProp_postBrandCleanup (r : List Char)
    (h : ∀ c, r.getLast? = some c →
      (isDashChar c = false ∧ c ≠ '"') ∧ isSpaceJS c = false) :
    ∀ c, (postBrandCleanup r).getLast? = some c →
      isSpaceJS c = false ∧ isDashChar c = false := by
  unfold postBrandCleanup
  cases hr : r.getLast? with
  | none =>
    rw [List.getLast?_eq_none_iff.mp hr]
    intro c hc
    simp only [List.filter_nil] at hc
    rw [show stripTrailingDashOnce ([] : List Char) = [] from rfl] at hc
    simp [trimL, dropTrailWs] at hc
  | some c0 =>
    obtain ⟨⟨hd0, hq0⟩, hw0⟩ := h c0 hr
    have hfil : (r.filter (fun c => c ≠ '"')).getLast? = some c0 :=
      getLast?_filter_of_last _ r c0 hr (by simpa using hq0)
    have hfl : ∀ c, (r.filter (fun c => c ≠ '"')).getLast? = some c →
        isSpaceJS c = false ∧ isDashChar c = false := by
      intro c hc
      rw [hfil, Option.some_inj] at hc
      rw [← hc]
      exact ⟨hw0, hd0⟩
    rw [show stripTrailingDashOnce (r.filter (fun c => c ≠ '"')) =
        r.filter (fun c => c ≠ '"') from
      stripTrailingDashOnceBy_eq_self isDashChar _ hfl]
    intro c hc
    have := lastProp_trimL _ (fun c => isDashChar c = false)
      (fun c2 hc2 => ⟨(hfl c2 hc2).2, (hfl c2 hc2).1⟩) c hc
    exact ⟨this.2, this.1⟩

theorem quote_not_in_postBrandCleanup (r : List Char) :
    '"' ∉ postBrandCleanup r := by
  intro hmem
  unfold postBrandCleanup at hmem
  have h1 := (trimL_sublist _).mem hmem
  have h2 := (stripTrailingDashOnce_sublist _).mem h1
  have := List.of_mem_filter h2
  simp at this

theorem extractBrandAndName_name_clean_end (l : List Char) (bs : List String)
    (h : ∀ c, l.getLast? = some c →
      isSpaceJS c = false ∧ isDashChar c = false ∧ c ≠ '"') :
    ∀ c, ((extractBrandAndName ⟨l⟩ bs).2).data.getLast? = some c →
      isSpaceJS c = false ∧ isDashChar c = false := by
  have hdata : (String.mk l).data = l := rfl
  have h0 : stripTrailingDashOnce l = l := by
    unfold stripTrailingDashOnce
    exact stripTrailingDashOnceBy_eq_self isDashChar l
      (fun c hc => ⟨(h c hc).1, (h c hc).2.1⟩)
  have h1 : dropTrailWs l = l := dropTrailWs_eq_self l (fun c hc => (h c hc).1)
  have hname0 : preBrandCleanup ⟨l⟩ = trimL l := by
    unfold preBrandCleanup
    rw [hdata, h0, h1]
  have hRnm : ∀ c, (preBrandCleanup ⟨l⟩).getLast? = some c →
      (isDashChar c = false ∧ c ≠ '"') ∧ isSpaceJS c = false := by
    rw [hname0]
    exact lastProp_trimL l _ (fun c hc =>
      ⟨⟨(h c hc).2.1, (h c hc).2.2⟩, (h c hc).1⟩)
  unfold extractBrandAndName
  cases hbl : brandLoop bs (preBrandCleanup ⟨l⟩) with
  | none =>
    dsimp only
    exact lastProp_postBrandCleanup _ hRnm
  | some br =>
    obtain ⟨b, r⟩ := br
    have hr := brandLoop_shape bs (preBrandCleanup ⟨l⟩) b r hbl
    subst hr
    dsimp only
    exact lastProp_postBrandCleanup _ (lastProp_brandRemainder b _ _ hRnm)

/-! the C5 claim -/

/-- C5: (1) the emitted product name never contains a quote character, for
any input and brand list; (2) for every candidate consisting of a base
name (ending in a character that is not white space, not a dash and not
a quote) followed by trailing white space, a run of N dash/en-dash/
em-dash characters and more white space, the name emitted by the
primary-section pipeline (`cleanProductText` then `extractBrandAndName`)
ends in a character that is neither white space nor a separator dash --
zero trailing separators; (3) re-running the stripping function
(`cleanProductText`) on an already-clean name (no leading or trailing
white space or dashes) is a no-op. -/
theorem extraction_strips_trailing_separators :
    (∀ (s : String) (bs : List String),
      '"' ∉ ((extractBrandAndName s bs).2).data) ∧
    (∀ (base w1 ds w2 : List Char) (bs : List String),
      (∀ c ∈ w1, isSpaceJS c = true) → (∀ c ∈ ds, isDashChar c = true) →
      (∀ c ∈ w2, isSpaceJS c = true) → base ≠ [] →
      (∀ c, base.getLast? = some c →
        isSpaceJS c = false ∧ isDashChar c = false ∧ c ≠ '"') →
      ∀ c, ((extractBrandAndName
          ⟨cleanProductText (base ++ (w1 ++ (ds ++ w2)))⟩ bs).2).data.getLast? =
            some c →
        isSpaceJS c = false ∧ isDashChar c = false) ∧
    (∀ l : List Char,
      (∀ c, l.head? = some c → isSpaceJS c = false ∧ isDashChar c = false) →
      (∀ c, l.getLast? = some c → isSpaceJS c = false ∧ isDashChar c = false) →
      cleanProductText l = l) := by
  refine ⟨?_, ?_, cleanProductText_eq_self⟩
  · intro s bs
    unfold extractBrandAndName
    cases brandLoop bs (preBrandCleanup s) with
    | none => exact quote_not_in_postBrandCleanup _
    | some br => exact quote_not_in_postBrandCleanup _
  · intro base w1 ds w2 bs hw1 hds hw2 hbase hlast
    have hpad := cleanProductText_padded base w1 ds w2 hw1 hds hw2 hbase
      (fun c hc => ⟨(hlast c hc).1, (hlast c hc).2.1⟩)
    rw [hpad]
    apply extractBrandAndName_name_clean_end
    -- the cleaned candidate still ends in the clean last character of `base`
    have hBprop : ∀ c, (base.dropWhile isSpaceJS).getLast? = some c →
        isSpaceJS c = false ∧ isDashChar c = false ∧ c ≠ '"' := by
      apply lastProp_dropWhile
      exact hlast
    have hLead := lastProp_stripLeadingDashRun (base.dropWhile isSpaceJS)
      (fun c => isSpaceJS c = false ∧ isDashChar c = false ∧ c ≠ '"') hBprop
    intro c hc
    have := lastProp_trimL _ (fun c => isDashChar c = false ∧ c ≠ '"')
      (fun c2 hc2 =>
        ⟨⟨(hLead c2 hc2).2.1, (hLead c2 hc2).2.2⟩, (hLead c2 hc2).1⟩) c hc
    exact ⟨this.2, this.1.1, this.1.2⟩

/-- C5 witness: the padded-candidate clause applied to
"Glow Serum --- " (the emitted name ends in \'m\'), the no-op clause
applied to the clean name "Glow Serum", and the quote clause applied to
a quoted shade name. -/
theorem extraction_strips_trailing_separators_witness :
    (isSpaceJS 'm' = false ∧ isDashChar 'm' = false) ∧
    cleanProductText "Glow Serum".data = "Glow Serum".data ∧
    '"' ∉ ((extractBrandAndName "CeraVe \"Hydrating\" Cleanser" ["CeraVe"]).2).data := by
  refine ⟨?_, ?_, ?_⟩
  · exact extraction_strips_trailing_separators.2.1 "Glow Serum".data
      " ".data "---".data " ".data ["CeraVe"]
      (by decide) (by decide) (by decide) (by decide) (by decide) 'm' (by decide)
  · exact extraction_strips_trailing_separators.2.2 "Glow Serum".data
      (by decide) (by decide)
  · exact extraction_strips_trailing_separators.1 "CeraVe \"Hydrating\" Cleanser" ["CeraVe"]

/-! ## Claim C9 -- the primary-section segmenter -/
/-- Modelled from the claim's words: the `\n[A-Z]{2,}:` alternative read as
an ALL-CAPS label — a run of at least two capital letters followed by a
colon. -/
def claimedLabelTermMatch (rest : List Char) : Bool :=
  let run := rest.takeWhile (fun c => 'A' ≤ c && c ≤ 'Z')
  decide (2 ≤ run.length) &&
    (match rest.drop run.length with
     | ':' :: _ => true
     | _ => false)

/-- Modelled from the claim's words: a terminator is the end of the text or
a newline followed by the literal FOLLOW, SUBSCRIBE, BUSINESS or MUSIC,
or by an ALL-CAPS "LABEL:" line — with no blank-line alternative and no
case folding. -/
def claimedTerminator : List Char → Bool
  | [] => true
  | '\n' :: rest =>
    startsLit "FOLLOW".data rest || startsLit "SUBSCRIBE".data rest ||
    startsLit "BUSINESS".data rest || startsLit "MUSIC".data rest ||
    claimedLabelTermMatch rest
  | _ => false

def claimedCaptureFrom : List Char → List Char
  | [] => []
  | c :: t => if claimedTerminator (c :: t) then [] else c :: claimedCaptureFrom t

/-- The primary candidate segment as the claim describes it. -/
def claimedProductsSection (d : String) : Option String :=
  (findHeader d.data).map (fun r => ⟨claimedCaptureFrom r⟩)

/-- The amended-specification capture length: the earliest position at or
after the capture start at which the terminator look-ahead holds (the
end of the text always qualifies). -/
def specCaptureLen (r : List Char) : Nat :=
  (((List.range (r.length + 1)).filter
      (fun p => sectionTerminator (r.drop p))).headD r.length)

theorem captureFrom_eq_take_specCaptureLen :
    ∀ r : List Char, captureFrom r = r.take (specCaptureLen r) := by
  intro r
  induction r with
  | nil => rfl
  | cons c t ih =>
    by_cases ht : sectionTerminator (c :: t) = true
    · unfold captureFrom
      rw [ht]
      simp only [if_true]
      have hlen : specCaptureLen (c :: t) = 0 := by
        unfold specCaptureLen
        rw [show (c :: t : List Char).length + 1 = (t.length + 1) + 1 from rfl,
            List.range_succ_eq_map]
        rw [List.filter_cons_of_pos (by simpa using ht)]
        rfl
      rw [hlen]
      rfl
    · rw [Bool.not_eq_true] at ht
      unfold captureFrom
      rw [ht]
      simp only [Bool.false_eq_true, if_false]
      have hlen : specCaptureLen (c :: t) = specCaptureLen t + 1 := by
        unfold specCaptureLen
        rw [show (c :: t : List Char).length + 1 = (t.length + 1) + 1 from rfl,
            List.range_succ_eq_map]
        rw [List.filter_cons_of_neg (by simpa using ht)]
        rw [List.filter_map]
        have hcomp : ((fun p => sectionTerminator ((c :: t).drop p)) ∘ Nat.succ) =
            (fun p => sectionTerminator (t.drop p)) := by
          funext p
          simp [List.drop_succ_cons]
        rw [hcomp]
        cases hf : (List.range (t.length + 1)).filter (fun p => sectionTerminator (t.drop p)) with
        | nil => simp [hf]
        | cons x xs => simp [hf]
      rw [hlen, List.take_succ_cons, ih]

/-- C9 counterexample: three descriptions on which the code's segment
differs from the claim's segment — the code also stops at a blank line,
stops at a lower-case `follow` line, and stops at a mixed-case
`Notes:` label, none of which the claim's terminator list admits. -/
theorem findProductsSection_claim_counterexample :
    (findProductsSection "PRODUCTS:\nAlpha - http://x\n\nBeta - http://y" =
        some "Alpha - http://x" ∧
      claimedProductsSection "PRODUCTS:\nAlpha - http://x\n\nBeta - http://y" =
        some "Alpha - http://x\n\nBeta - http://y") ∧
    (findProductsSection "PRODUCTS:\nAlpha - http://x\nfollow me here\nBeta" =
        some "Alpha - http://x" ∧
      claimedProductsSection "PRODUCTS:\nAlpha - http://x\nfollow me here\nBeta" =
        some "Alpha - http://x\nfollow me here\nBeta") ∧
    (findProductsSection "PRODUCTS:\nAlpha - http://x\nNotes: whatever" =
        some "Alpha - http://x" ∧
      claimedProductsSection "PRODUCTS:\nAlpha - http://x\nNotes: whatever" =
        some "Alpha - http://x\nNotes: whatever") := by
  decide

/-- C9 (amended): the captured primary segment runs from the header match
to the earliest subsequent blank line, newline followed by FOLLOW,
SUBSCRIBE, BUSINESS or MUSIC (case-insensitive), newline followed by at
least two letters and a colon (case-insensitive), or the end of the
text; and when the header regex does not match at all, extraction is
the deduplicated line-by-line fallback scan of the whole text. -/
theorem findProductsSection_amended
    (d : String) :
    (findProductsSection d =
      (findHeader d.data).map (fun r => ⟨r.take (specCaptureLen r)⟩)) ∧
    (findProductsSection d = none → ∀ bs : List String,
      extractProductsFromDescription d bs =
        removeDuplicates (method2Products bs d.data)) := by
  constructor
  · unfold findProductsSection
    cases findHeader d.data with
    | none => rfl
    | some r =>
      show some (String.mk (captureFrom r)) = some (String.mk (r.take (specCaptureLen r)))
      rw [captureFrom_eq_take_specCaptureLen]
  · intro hnone bs
    unfold findProductsSection at hnone
    rw [Option.map_eq_none'] at hnone
    by_cases hd : d = ""
    · subst hd
      rfl
    · unfold extractProductsFromDescription
      rw [if_neg hd, hnone]
      simp

/-- C9 witness: the amended segment equation evaluated on Scenario A's
description, and the fallback clause on a description with no header. -/
theorem findProductsSection_amended_witness :
    findProductsSection scenarioADescription =
      (findHeader scenarioADescription.data).map
        (fun r => ⟨r.take (specCaptureLen r)⟩) ∧
    extractProductsFromDescription "no header here - https://go.shopmy.us/q" ["CeraVe"] =
      removeDuplicates (method2Products ["CeraVe"]
        "no header here - https://go.shopmy.us/q".data) := by
  constructor
  · exact (findProductsSection_amended scenarioADescription).1
  · exact (findProductsSection_amended "no header here - https://go.shopmy.us/q").2
      (by decide) ["CeraVe"]

end ContentEngine
